import Mathlib

/-!
Shallow embedding of `src/packages/json-wallets/src.ts/keystore.ts` (the
Web3 Secret Storage codec of ethers.js, with the `x-ethers` encrypted
mnemonic extension) and proofs about the claims of the specification.

Modelling conventions:
* A byte is `Fin 256`; byte strings are lists of bytes.
* The external cryptographic collaborators (scrypt, pbkdf2, keccak256,
  AES-CTR, secp256k1 address derivation, EIP-55 canonicalization, BIP-39
  and BIP-32 derivation, UUIDv4) are out of scope of the repository and are
  modelled as fields of a `Prims` record over which the theorems quantify.
  AES-CTR encryption and decryption are the same keystream operation, so a
  single field `aesCtr` models both `aesCtr.encrypt` and `aesCtr.decrypt`.
* A parsed keystore JSON document is modelled as the record `KeystoreData`;
  each field corresponds to one `searchPath` lookup of the source.  `Option`
  models a missing field (`searchPath` returning `null`, or `parseInt`
  returning `NaN` for the integer fields).  Fields that the source feeds
  through `looseArrayify` (iv, ciphertext, salt, mnemonicCounter,
  mnemonicCiphertext) are modelled as already-decoded byte lists, and the
  JSON serialisation of `encrypt` composed with the `JSON.parse` of
  `decrypt` is modelled as the identity on this record, since `JSON.parse`
  inverts `JSON.stringify` and `hexlify`/`looseArrayify` are mutually
  inverse on well-formed values.  The `mac` and `address` fields stay
  strings because the source compares them as (lowercased) strings.
* The ambient effects of `encrypt` are made explicit: the `randomBytes`
  draws become a `RandomTape` argument and the `new Date()` timestamp a
  `DateParts` argument.
* JS `toLowerCase` on the ASCII data handled here is modelled by
  `lowerStr`; JS 32-bit bitwise `&` in the power-of-two check is modelled
  with an explicit `% 2 ^ 32` reduction (`ToInt32`), which matters for the
  claim about non-power-of-two scrypt `n` values.
* The invoked key-derivation calls are recorded (`KdfCall`) so that the
  statements "the KDF is never invoked" and "pbkdf2 is invoked requesting
  so-many bytes" are expressible.
-/

namespace Keystore

abbrev Byte := Fin 256

abbrev Bytes := List Byte

/-- Model of `Uint8Array.slice(a, b)` on byte lists. -/
def slice (bs : Bytes) (a b : Nat) : Bytes := (bs.drop a).take (b - a)

/-- Model of JS `toLowerCase` on a single ASCII character. -/
def lowerChar (c : Char) : Char :=
  if 65 ≤ c.toNat ∧ c.toNat ≤ 90 then
    Char.ofNat (c.toNat + 32)
  else c

/-- Model of JS `String.prototype.toLowerCase` (ASCII payloads only). -/
def lowerStr (s : String) : String := ⟨s.data.map lowerChar⟩

/-- Model of JS `substring(0, n)`. -/
def strTake (s : String) (n : Nat) : String := ⟨s.data.take n⟩

/-- Model of JS `substring(n)`. -/
def strDrop (s : String) (n : Nat) : String := ⟨s.data.drop n⟩

/-- Lowercase hex digit of a nibble, as produced by `hexlify`. -/
def hexDigit (n : Fin 16) : Char :=
  if n.val < 10 then Char.ofNat (48 + n.val) else Char.ofNat (87 + n.val)

/-- Two lowercase hex digits of one byte. -/
def byteToHex (b : Byte) : List Char :=
  [hexDigit ⟨b.val / 16, by omega⟩, hexDigit ⟨b.val % 16, by omega⟩]

def hexCharsOf : Bytes → List Char
  | [] => []
  | b :: r => byteToHex b ++ hexCharsOf r

/-- Model of `hexlify(bytes).substring(2)`: lowercase hex, no prefix. -/
def bytesToHex (bs : Bytes) : String := ⟨hexCharsOf bs⟩

/-- Model of `hexlify(bytes)`: lowercase hex with the `0x` prefix. -/
def bytesToHex0x (bs : Bytes) : String := "0x" ++ bytesToHex bs

/-- Value of one hex digit character (either case); 0 on non-hex input. -/
def hexVal (c : Char) : Fin 16 :=
  if c = '0' then 0 else if c = '1' then 1 else if c = '2' then 2
  else if c = '3' then 3 else if c = '4' then 4 else if c = '5' then 5
  else if c = '6' then 6 else if c = '7' then 7 else if c = '8' then 8
  else if c = '9' then 9 else if c = 'a' ∨ c = 'A' then 10
  else if c = 'b' ∨ c = 'B' then 11 else if c = 'c' ∨ c = 'C' then 12
  else if c = 'd' ∨ c = 'D' then 13 else if c = 'e' ∨ c = 'E' then 14
  else if c = 'f' ∨ c = 'F' then 15 else 0

def hexPairs : List Char → Bytes
  | c1 :: c2 :: rest =>
    (⟨(hexVal c1).val * 16 + (hexVal c2).val, by
        have h1 := (hexVal c1).isLt
        have h2 := (hexVal c2).isLt
        omega⟩ : Byte) :: hexPairs rest
  | _ => []

/-- Model of `arrayify` on a `0x`-prefixed hex string. -/
def hexToBytes (s : String) : Bytes := hexPairs (s.data.drop 2)

/-- Modelled from the spec: `zpad(n, width)` of the missing `./utils`
module left-pads the decimal representation of `n` with `0` to `width`. -/
def zpad (n width : Nat) : String :=
  let s := Nat.repr n
  ⟨List.replicate (width - s.length) '0'⟩ ++ s

/-- ASCII apostrophe, used to spell the hardened-derivation marks. -/
def hardMark : String := ⟨[Char.ofNat 39]⟩

/-- The `defaultPath` constant of `@ethersproject/hdnode`. -/
def defaultPath : String :=
  "m/44" ++ hardMark ++ "/60" ++ hardMark ++ "/0" ++ hardMark ++ "/0/0"

/-- Result of `HDNode.fromMnemonic(m).derivePath(p)`: the fields of the
derived node that the source reads. -/
structure HDNodeM where
  privateKey : String
  mnemonic : String
  path : String
deriving DecidableEq, Repr

/-- The external collaborators consumed by the codec (spec section 6). -/
structure Prims where
  scrypt : Bytes → Bytes → Nat → Nat → Nat → Nat → Bytes
  pbkdf2 : Bytes → Bytes → Option Nat → Nat → String → Bytes
  keccak256 : Bytes → Bytes
  aesCtr : Bytes → Bytes → Bytes → Bytes
  computeAddress : Bytes → String
  getAddress : String → String
  entropyToMnemonic : Bytes → String
  mnemonicToEntropy : String → Bytes
  hdDerive : String → String → HDNodeM
  uuidV4 : Bytes → String

/-- The account record (`KeystoreAccount` of the source, also standing for
the `ExternallyOwnedAccount` consumed by `encrypt`). -/
structure KeystoreAccount where
  address : String
  privateKey : String
  mnemonic : Option String
  path : Option String
deriving DecidableEq, Repr

/-- The `x-ethers` section of a keystore document. -/
structure XEthersData where
  client : String
  gethFilename : String
  mnemonicCounter : Bytes
  mnemonicCiphertext : Bytes
  path : Option String
  version : String
deriving DecidableEq, Repr

/-- A parsed keystore JSON document, one field per `searchPath` lookup. -/
structure KeystoreData where
  address : Option String
  id : Option String
  version : Option Nat
  cipher : Option String
  cipherparamsIv : Bytes
  ciphertext : Bytes
  kdf : Option String
  kdfSalt : Bytes
  kdfN : Option Nat
  kdfR : Option Nat
  kdfP : Option Nat
  kdfDklen : Option Nat
  kdfC : Option Nat
  kdfPrf : Option String
  mac : String
  xethers : Option XEthersData
deriving DecidableEq, Repr

/-- The error taxonomy of the codec (spec section 7), one constructor per
`throw new Error(...)` site of the source. -/
inductive KeystoreError where
  | invalidPassword
  | unsupportedCipher
  | addressMismatch
  | mnemonicMismatch
  | unsupportedKdfParams
  | unsupportedKdfNValue
  | unsupportedDkLen
  | unsupportedPrf
  | unsupportedKdf
  | addressPrivateKeyMismatch
  | pathWithoutMnemonic
  | invalidIv
  | invalidUuid
deriving DecidableEq, Repr

/-- Record of one invocation of a key-derivation primitive. -/
inductive KdfCall where
  | scrypt (salt : Bytes) (n r p outLen : Nat)
  | pbkdf2 (salt : Bytes) (c : Option Nat) (outLen : Nat) (prf : String)
deriving DecidableEq, Repr

/-- Model of `searchPath(...) || defaultPath` and `account.path ||
defaultPath`: JS `||` replaces both a missing and an empty path. -/
def pathOr (p : Option String) : String :=
  match p with
  | none => defaultPath
  | some s => if s = "" then defaultPath else s

/-- The inner `decrypt` closure of the source (keystore.ts lines 54-66):
AES-128-CTR under the given key and the document iv, `null` (here `none`)
for any other cipher name. -/
def innerCipherDecrypt (P : Prims) (d : KeystoreData) (key ct : Bytes) :
    Option Bytes :=
  if d.cipher = some "aes-128-ctr" then
    some (P.aesCtr key d.cipherparamsIv ct)
  else none

/-- The `computeMAC` of the source rendered as the lowercase hex string
that `decrypt` compares: `hexlify(keccak256(key[16..32] ++ ct)).substring(2)`. -/
def macHex (P : Prims) (d : KeystoreData) (key : Bytes) : String :=
  bytesToHex (P.keccak256 (slice key 16 32 ++ d.ciphertext))

/-- Model of `check = data.address.toLowerCase(); if no 0x prefix, prepend
it` (keystore.ts lines 89-90), given the already-lowercased string. -/
def normalize0x (s : String) : String :=
  if strTake s 2 ≠ "0x" then "0x" ++ s else s

/-- The document-address comparison of `getAccount` (keystore.ts lines
88-95); `none` means the check passed or the document has no address. -/
def addressCheck (P : Prims) (d : KeystoreData) (addr : String) :
    Option KeystoreError :=
  match d.address with
  | none => none
  | some a =>
    if P.getAddress (normalize0x (lowerStr a)) ≠ addr then
      some .addressMismatch
    else none

/-- The account without mnemonic data (keystore.ts lines 97-101). -/
def baseAccount (P : Prims) (pk : Bytes) : KeystoreAccount :=
  ⟨P.computeAddress pk, bytesToHex0x pk, none, none⟩

/-- The HD node derived in the `x-ethers` branch (keystore.ts lines
105-116): decrypt the entropy under `key[32..64]` with the stored counter,
convert to a mnemonic, derive along the stored (or default) path. -/
def xEthersNode (P : Prims) (xe : XEthersData) (key : Bytes) : HDNodeM :=
  P.hdDerive
    (P.entropyToMnemonic
      (P.aesCtr (slice key 32 64) xe.mnemonicCounter xe.mnemonicCiphertext))
    (pathOr xe.path)

/-- The `x-ethers` stage of `getAccount` (keystore.ts lines 103-126). -/
def mnemonicStage (P : Prims) (d : KeystoreData) (key pk : Bytes) :
    Except KeystoreError KeystoreAccount :=
  match d.xethers with
  | some xe =>
    if xe.version = "0.1" then
      if (xEthersNode P xe key).privateKey ≠ bytesToHex0x pk then
        .error .mnemonicMismatch
      else
        .ok ⟨P.computeAddress pk, bytesToHex0x pk,
             some (xEthersNode P xe key).mnemonic,
             some (xEthersNode P xe key).path⟩
    else .ok (baseAccount P pk)
  | none => .ok (baseAccount P pk)

/-- The `getAccount` closure of the source (keystore.ts lines 72-127):
MAC check, cipher check, address check, then the mnemonic stage. -/
def getAccount (P : Prims) (d : KeystoreData) (key : Bytes) :
    Except KeystoreError KeystoreAccount :=
  if macHex P d key ≠ lowerStr d.mac then .error .invalidPassword
  else
    match innerCipherDecrypt P d (slice key 0 16) d.ciphertext with
    | none => .error .unsupportedCipher
    | some pk =>
      match addressCheck P d (P.computeAddress pk) with
      | some e => .error e
      | none => mnemonicStage P d key pk

/-- The KDF dispatch of `decrypt` (keystore.ts lines 130-182), returning
the derived key together with the record of the one KDF invocation.  The
power-of-two test models the JS expression `(N & (N - 1)) !== 0`, whose
`&` coerces both operands with `ToInt32`; zero-ness of the 32-bit result
equals zero-ness of `Nat.land` on the operands reduced `% 2 ^ 32`.  The
scrypt branch requests 64 bytes; the pbkdf2 branch requests `dkLen`
(= 32 after its validation), exactly as the source does. -/
def kdfStage (P : Prims) (d : KeystoreData) (pw : Bytes) :
    Except KeystoreError (Bytes × KdfCall) :=
  match d.kdf with
  | some kdf =>
    if kdf = "" then .error .unsupportedKdf
    else if lowerStr kdf = "scrypt" then
      match d.kdfN, d.kdfR, d.kdfP with
      | some N, some r, some p =>
        if N = 0 ∨ r = 0 ∨ p = 0 then .error .unsupportedKdfParams
        else if (N % 2 ^ 32) &&& ((N - 1) % 2 ^ 32) ≠ 0 then
          .error .unsupportedKdfNValue
        else if d.kdfDklen ≠ some 32 then .error .unsupportedDkLen
        else
          .ok (P.scrypt pw d.kdfSalt N r p 64,
               .scrypt d.kdfSalt N r p 64)
      | _, _, _ => .error .unsupportedKdfParams
    else if lowerStr kdf = "pbkdf2" then
      match d.kdfPrf with
      | some "hmac-sha256" =>
        if d.kdfDklen ≠ some 32 then .error .unsupportedDkLen
        else
          .ok (P.pbkdf2 pw d.kdfSalt d.kdfC 32 "sha256",
               .pbkdf2 d.kdfSalt d.kdfC 32 "sha256")
      | some "hmac-sha512" =>
        if d.kdfDklen ≠ some 32 then .error .unsupportedDkLen
        else
          .ok (P.pbkdf2 pw d.kdfSalt d.kdfC 32 "sha512",
               .pbkdf2 d.kdfSalt d.kdfC 32 "sha512")
      | _ => .error .unsupportedPrf
    else .error .unsupportedKdf
  | none => .error .unsupportedKdf

/-- The exported `decrypt` (keystore.ts lines 49-183). -/
def decrypt (P : Prims) (d : KeystoreData) (pw : Bytes) :
    Except KeystoreError KeystoreAccount :=
  match kdfStage P d pw with
  | .error e => .error e
  | .ok (key, _) => getAccount P d key

/-- The key-derivation invocations performed by `decrypt`. -/
def decryptCalls (P : Prims) (d : KeystoreData) (pw : Bytes) :
    List KdfCall :=
  match kdfStage P d pw with
  | .error _ => []
  | .ok (_, c) => [c]

/-- The scrypt overrides of `EncryptOptions`. -/
structure ScryptOverrides where
  N : Option Nat
  r : Option Nat
  p : Option Nat
deriving DecidableEq, Repr

/-- The `EncryptOptions` of the source; `entropy` is declared by the
source but never consumed. -/
structure EncryptOptions where
  iv : Option Bytes
  entropy : Option Bytes
  client : Option String
  salt : Option Bytes
  uuid : Option Bytes
  scrypt : Option ScryptOverrides
deriving DecidableEq, Repr

/-- Explicit model of the `randomBytes` draws that `encrypt` may perform:
the 32-byte salt, the 16-byte iv, the 16-byte uuid seed, and the 16-byte
mnemonic iv. -/
structure RandomTape where
  salt : Bytes
  iv : Bytes
  uuid : Bytes
  mnemonicIv : Bytes
deriving DecidableEq, Repr

/-- Explicit model of the `new Date()` UTC components read by `encrypt`;
`month0` is the 0-based `getUTCMonth()`. -/
structure DateParts where
  year : Nat
  month0 : Nat
  day : Nat
  hour : Nat
  minute : Nat
  second : Nat
deriving DecidableEq, Repr

/-- The `gethFilename` timestamp (keystore.ts lines 310-317). -/
def tsString (now : DateParts) : String :=
  Nat.repr now.year ++ "-" ++ zpad (now.month0 + 1) 2 ++ "-" ++
    zpad now.day 2 ++ "T" ++ zpad now.hour 2 ++ "-" ++
    zpad now.minute 2 ++ "-" ++ zpad now.second 2 ++ ".0Z"

/-- The input validation of `encrypt` (keystore.ts lines 187-204). -/
def encryptValidate (P : Prims) (account : KeystoreAccount) :
    Option KeystoreError :=
  if P.getAddress account.address ≠
      P.computeAddress (hexToBytes account.privateKey) then
    some .addressPrivateKeyMismatch
  else
    match account.mnemonic with
    | some m =>
      if (P.hdDerive m (pathOr account.path)).privateKey ≠
          account.privateKey then
        some .mnemonicMismatch
      else none
    | none =>
      if account.path ≠ none then some .pathWithoutMnemonic else none

/-- The iv override check (keystore.ts lines 235-241). -/
def checkIv (options : EncryptOptions) (rand : RandomTape) :
    Except KeystoreError Bytes :=
  match options.iv with
  | some v => if v.length ≠ 16 then .error .invalidIv else .ok v
  | none => .ok rand.iv

/-- The uuid override check (keystore.ts lines 244-250). -/
def checkUuid (options : EncryptOptions) (rand : RandomTape) :
    Except KeystoreError Bytes :=
  match options.uuid with
  | some v => if v.length ≠ 16 then .error .invalidUuid else .ok v
  | none => .ok rand.uuid

/-- The effective scrypt work factor (keystore.ts lines 253-258: `1 << 17`
unless a truthy override is given; a zero override is falsy in JS and
keeps the default).  Likewise `effR` and `effP` below. -/
def effN (options : EncryptOptions) : Nat :=
  match options.scrypt with
  | none => 131072
  | some s =>
    match s.N with
    | none => 131072
    | some n => if n = 0 then 131072 else n

def effR (options : EncryptOptions) : Nat :=
  match options.scrypt with
  | none => 8
  | some s =>
    match s.r with
    | none => 8
    | some r => if r = 0 then 8 else r

def effP (options : EncryptOptions) : Nat :=
  match options.scrypt with
  | none => 1
  | some s =>
    match s.p with
    | none => 1
    | some p => if p = 0 then 1 else p

/-- The effective client tag (keystore.ts lines 223-224; `||`-style
falsy check, so an empty override also falls back). -/
def effClient (options : EncryptOptions) : String :=
  match options.client with
  | none => "ethers.js"
  | some c => if c = "" then "ethers.js" else c

/-- The effective scrypt salt (keystore.ts lines 227-232). -/
def effSalt (options : EncryptOptions) (rand : RandomTape) : Bytes :=
  match options.salt with
  | some s => s
  | none => rand.salt

/-- The mnemonic entropy (keystore.ts lines 216-221): present exactly when
`account.mnemonic` is truthy, that is, present and non-empty. -/
def entropyOf (P : Prims) (account : KeystoreAccount) : Option Bytes :=
  match account.mnemonic with
  | some m => if m = "" then none else some (P.mnemonicToEntropy m)
  | none => none

/-- The document built after the scrypt call of `encrypt` (keystore.ts
lines 263-328), given the checked iv and uuid bytes. -/
def buildDoc (P : Prims) (account : KeystoreAccount) (pw : Bytes)
    (options : EncryptOptions) (rand : RandomTape) (now : DateParts)
    (iv uuidR : Bytes) : KeystoreData × KdfCall :=
  let privateKey := hexToBytes account.privateKey
  let salt := effSalt options rand
  let N := effN options
  let r := effR options
  let p := effP options
  let key := P.scrypt pw salt N r p 64
  let ct := P.aesCtr (slice key 0 16) iv privateKey
  let mac := P.keccak256 (slice key 16 32 ++ ct)
  let addressLower := lowerStr (strDrop account.address 2)
  let base : KeystoreData :=
    { address := some addressLower,
      id := some (P.uuidV4 uuidR),
      version := some 3,
      cipher := some "aes-128-ctr",
      cipherparamsIv := iv,
      ciphertext := ct,
      kdf := some "scrypt",
      kdfSalt := salt,
      kdfN := some N,
      kdfR := some r,
      kdfP := some p,
      kdfDklen := some 32,
      kdfC := none,
      kdfPrf := none,
      mac := bytesToHex mac,
      xethers := none }
  let d :=
    match entropyOf P account with
    | some e =>
      let mnemonicCiphertext := P.aesCtr (slice key 32 64) rand.mnemonicIv e
      { base with
        xethers := some
          { client := effClient options,
            gethFilename :=
              "UTC--" ++ tsString now ++ "--" ++ addressLower,
            mnemonicCounter := rand.mnemonicIv,
            mnemonicCiphertext := mnemonicCiphertext,
            path := some (pathOr account.path),
            version := "0.1" } }
    | none => base
  (d, .scrypt salt N r p 64)

/-- The exported `encrypt` (keystore.ts lines 185-330) with its one scrypt
invocation recorded; the JSON document is returned as the parsed record. -/
def encryptAux (P : Prims) (account : KeystoreAccount) (pw : Bytes)
    (options : EncryptOptions) (rand : RandomTape) (now : DateParts) :
    Except KeystoreError (KeystoreData × KdfCall) :=
  match encryptValidate P account with
  | some e => .error e
  | none =>
    match checkIv options rand with
    | .error e => .error e
    | .ok iv =>
      match checkUuid options rand with
      | .error e => .error e
      | .ok uuidR => .ok (buildDoc P account pw options rand now iv uuidR)

/-- The document produced by `encrypt`. -/
def encrypt (P : Prims) (account : KeystoreAccount) (pw : Bytes)
    (options : EncryptOptions) (rand : RandomTape) (now : DateParts) :
    Except KeystoreError KeystoreData :=
  match encryptAux P account pw options rand now with
  | .error e => .error e
  | .ok (d, _) => .ok d

/-- The key-derivation invocations performed by `encrypt`. -/
def encryptCalls (P : Prims) (account : KeystoreAccount) (pw : Bytes)
    (options : EncryptOptions) (rand : RandomTape) (now : DateParts) :
    List KdfCall :=
  match encryptAux P account pw options rand now with
  | .error _ => []
  | .ok (_, c) => [c]

/-! Concrete instantiations of the external primitives and concrete inputs.
They are used by the witness and counterexample theorems: the general
theorems quantify over `Prims`, and these values let the statements be
evaluated on closed inputs. -/

/-- A small concrete instantiation of the external primitives. -/
def P0 : Prims :=
  { scrypt := fun _ _ _ _ _ len => List.replicate len 0,
    pbkdf2 := fun _ _ _ len _ => List.replicate len 0,
    keccak256 := fun _ => List.replicate 32 0,
    aesCtr := fun _ _ m => m,
    computeAddress := fun _ => "0xab",
    getAddress := fun _ => "0xab",
    entropyToMnemonic := fun _ => "m",
    mnemonicToEntropy := fun _ => [],
    hdDerive := fun m p => ⟨"0x01", m, p⟩,
    uuidV4 := fun _ => "u" }

/-- Like `P0` but with a canonicalizer that disagrees with the computed
address, to exercise the address/privateKey mismatch branch. -/
def P1 : Prims := { P0 with getAddress := fun _ => "0x00" }

/-- Like `P0` but with the identity canonicalizer, to exercise the
document-address mismatch branch of `decrypt`. -/
def P2 : Prims := { P0 with getAddress := fun s => s }

def pw0 : Bytes := []

/-- A well-formed account for `P0`: address `0xab`, private key `0x01`,
mnemonic `m`, no path. -/
def acc0 : KeystoreAccount := ⟨"0xab", "0x01", some "m", none⟩

/-- The same account without a mnemonic. -/
def accNoMn : KeystoreAccount := ⟨"0xab", "0x01", none, none⟩

/-- An account whose mnemonic does not derive to its private key under
`P0` (the private key is `0x02` but derivation yields `0x01`). -/
def accBadMn : KeystoreAccount := ⟨"0xab", "0x02", some "m", none⟩

/-- An account with a path but no mnemonic. -/
def accPathOnly : KeystoreAccount := ⟨"0xab", "0x01", none, some "m/0"⟩

/-- Options fixing iv, salt, uuid and small scrypt parameters. -/
def opts0 : EncryptOptions :=
  { iv := some (List.replicate 16 0),
    entropy := none,
    client := none,
    salt := some (List.replicate 32 0),
    uuid := some (List.replicate 16 0),
    scrypt := some ⟨some 2, some 1, some 1⟩ }

/-- Options with no overrides at all. -/
def optsNone : EncryptOptions := ⟨none, none, none, none, none, none⟩

def rand0 : RandomTape := ⟨[], [], [], List.replicate 16 0⟩

/-- Like `rand0` but with a different mnemonic-iv draw. -/
def rand1 : RandomTape := ⟨[], [], [], List.replicate 16 1⟩

def now0 : DateParts := ⟨2020, 0, 1, 2, 3, 4⟩

/-- The MAC hex that the constant `P0.keccak256` always yields. -/
def macGood : String := bytesToHex (List.replicate 32 0)

/-- Common scrypt kdf fields for the concrete documents. -/
def dBase : KeystoreData :=
  { address := none, id := none, version := none,
    cipher := some "aes-128-ctr", cipherparamsIv := [], ciphertext := [1],
    kdf := some "scrypt", kdfSalt := [], kdfN := some 2, kdfR := some 1,
    kdfP := some 1, kdfDklen := some 32, kdfC := none, kdfPrf := none,
    mac := macGood, xethers := none }

/-- A document carrying an address that matches under `P0`. -/
def d7 : KeystoreData := { dBase with address := some "ab" }

/-- A document carrying an address that mismatches under `P2`. -/
def d7bad : KeystoreData := { dBase with address := some "cd" }

/-- A document with an unsupported cipher and a matching MAC. -/
def d9 : KeystoreData := { dBase with cipher := some "foo" }

/-- A document with an unsupported cipher and a mismatching MAC. -/
def d9bad : KeystoreData := { dBase with cipher := some "foo", mac := "ff" }

/-- A pbkdf2 document with valid prf and dklen fields. -/
def d2 : KeystoreData :=
  { dBase with
    kdf := some "pbkdf2"
    kdfPrf := some "hmac-sha256"
    kdfC := some 1
    kdfN := none
    kdfR := none
    kdfP := none }

/-- A scrypt document whose `n` is `2 ^ 32 + 1`: not a power of two, yet
the 32-bit reduction of the JS bitwise check lets it through. -/
def d5 : KeystoreData := { dBase with kdfN := some 4294967297 }

/-- A document with an `x-ethers` mnemonic section consistent under `P0`. -/
def d8 : KeystoreData :=
  { dBase with
    xethers := some ⟨"c", "g", [], [], none, "0.1"⟩ }

/-- Like `d8` but the decrypted private key disagrees with the mnemonic
derivation. -/
def d8bad : KeystoreData :=
  { dBase with
    ciphertext := [2]
    xethers := some ⟨"c", "g", [], [], none, "0.1"⟩ }

deriving instance DecidableEq for Except

/-! Helper lemmas: the lowercase map, hex codecs, and the power-of-two
bit trick. -/

theorem lowerChar_toNat (c : Char) (h : 65 ≤ c.toNat ∧ c.toNat ≤ 90) :
    (lowerChar c).toNat = c.toNat + 32 := by
  have hv : (c.toNat + 32).isValidChar := Or.inl (by omega)
  simp only [lowerChar, if_pos h, Char.ofNat, dif_pos hv]
  rfl

theorem lowerChar_idem (c : Char) : lowerChar (lowerChar c) = lowerChar c := by
  by_cases h : 65 ≤ c.toNat ∧ c.toNat ≤ 90
  · have h2 := lowerChar_toNat c h
    have hno : ¬(65 ≤ (lowerChar c).toNat ∧ (lowerChar c).toNat ≤ 90) := by
      omega
    conv_lhs => rw [lowerChar.eq_def]
    rw [if_neg hno]
  · have hc : lowerChar c = c := by rw [lowerChar.eq_def, if_neg h]
    rw [hc, hc]

theorem lowerStr_idem (s : String) : lowerStr (lowerStr s) = lowerStr s := by
  show String.mk (List.map lowerChar (List.map lowerChar s.data)) =
    String.mk (List.map lowerChar s.data)
  rw [List.map_map]
  exact congrArg String.mk
    (List.map_congr_left fun a _ => lowerChar_idem a)

theorem lowerChar_hexDigit : ∀ n : Fin 16,
    lowerChar (hexDigit n) = hexDigit n := by decide

theorem hexVal_hexDigit : ∀ n : Fin 16, hexVal (hexDigit n) = n := by decide

theorem lowerStr_bytesToHex (bs : Bytes) :
    lowerStr (bytesToHex bs) = bytesToHex bs := by
  show String.mk (List.map lowerChar (hexCharsOf bs)) =
    String.mk (hexCharsOf bs)
  congr 1
  induction bs with
  | nil => rfl
  | cons b r ih => simp [hexCharsOf, byteToHex, lowerChar_hexDigit, ih]

theorem hexPairs_hexCharsOf (bs : Bytes) : hexPairs (hexCharsOf bs) = bs := by
  induction bs with
  | nil => rfl
  | cons b r ih =>
    show hexPairs (byteToHex b ++ hexCharsOf r) = b :: r
    simp only [byteToHex, List.cons_append, List.nil_append, hexPairs,
      hexVal_hexDigit, ih]
    congr 1
    apply Fin.ext
    show b.val / 16 * 16 + b.val % 16 = b.val
    omega

theorem hexToBytes_bytesToHex0x (bs : Bytes) :
    hexToBytes (bytesToHex0x bs) = bs := by
  show hexPairs ((("0x" : String) ++ bytesToHex bs).data.drop 2) = bs
  rw [String.data_append]
  show hexPairs (hexCharsOf bs) = bs
  exact hexPairs_hexCharsOf bs

theorem and_two_mul_add_one (a b : Nat) :
    (2 * a) &&& (2 * b + 1) = 2 * (a &&& b) := by
  apply Nat.eq_of_testBit_eq
  intro i
  cases i with
  | zero =>
    simp [Nat.testBit_zero, Nat.mul_mod_right, Nat.mul_add_mod]
  | succ j =>
    simp only [Nat.testBit_succ, Nat.and_div_two]
    rw [Nat.mul_div_cancel_left _ (by omega : 0 < 2),
      Nat.mul_div_cancel_left _ (by omega : 0 < 2),
      Nat.mul_add_div (by omega : 0 < 2)]
    norm_num

theorem and_add_one_two_mul (a b : Nat) :
    (2 * a + 1) &&& (2 * b) = 2 * (a &&& b) := by
  rw [Nat.and_comm, and_two_mul_add_one, Nat.and_comm]

theorem and_self_eq (a : Nat) : a &&& a = a := by
  apply Nat.eq_of_testBit_eq
  intro i
  simp

theorem and_pred_eq_zero_iff_pow2 :
    ∀ n : Nat, 0 < n → (n &&& (n - 1) = 0 ↔ ∃ k, n = 2 ^ k) := by
  intro n
  induction n using Nat.strong_induction_on with
  | _ n ih =>
    intro hn
    rcases Nat.even_or_odd n with he | ho
    · obtain ⟨m, hm⟩ := he
      have hm2 : n = 2 * m := by omega
      subst hm2
      have hmpos : 0 < m := by omega
      have hpred : 2 * m - 1 = 2 * (m - 1) + 1 := by omega
      rw [hpred, and_two_mul_add_one]
      constructor
      · intro h0
        obtain ⟨k, hk⟩ := (ih m (by omega) hmpos).mp (by omega)
        exact ⟨k + 1, by rw [hk]; ring⟩
      · rintro ⟨k, hk⟩
        cases k with
        | zero => rw [pow_zero] at hk; omega
        | succ j =>
          have hj : m = 2 ^ j := by
            have : 2 * m = 2 * 2 ^ j := by rw [hk]; ring
            omega
          have := (ih m (by omega) hmpos).mpr ⟨j, hj⟩
          omega
    · obtain ⟨m, hm⟩ := ho
      subst hm
      by_cases hm0 : m = 0
      · subst hm0
        constructor
        · intro _
          exact ⟨0, rfl⟩
        · intro _
          simp
      · have hand : (2 * m + 1) &&& (2 * m + 1 - 1) = 2 * m := by
          rw [show 2 * m + 1 - 1 = 2 * m from rfl, and_add_one_two_mul,
            and_self_eq]
        rw [hand]
        constructor
        · intro h0
          omega
        · rintro ⟨k, hk⟩
          exfalso
          cases k with
          | zero => rw [pow_zero] at hk; omega
          | succ j =>
            have : 2 * m + 1 = 2 * 2 ^ j := by rw [hk]; ring
            omega

theorem pow2_passes_check (k : Nat) :
    (2 ^ k % 2 ^ 32) &&& ((2 ^ k - 1) % 2 ^ 32) = 0 := by
  by_cases h : k < 32
  · have h1 : (2 : Nat) ^ k < 2 ^ 32 := Nat.pow_lt_pow_right (by omega) h
    rw [Nat.mod_eq_of_lt h1, Nat.mod_eq_of_lt (by omega)]
    exact (and_pred_eq_zero_iff_pow2 (2 ^ k)
      (Nat.pos_pow_of_pos k (by omega))).mpr ⟨k, rfl⟩
  · have hz : 2 ^ k % 2 ^ 32 = 0 :=
      Nat.mod_eq_zero_of_dvd (Nat.pow_dvd_pow 2 (by omega))
    rw [hz, Nat.and_comm, Nat.and_zero]

/-! Structural lemmas about the stages of `decrypt`. -/

theorem decrypt_kdf_ok {P : Prims} {d : KeystoreData} {pw key : Bytes}
    {c : KdfCall} (h : kdfStage P d pw = .ok (key, c)) :
    decrypt P d pw = getAccount P d key := by
  unfold decrypt
  rw [h]

theorem decrypt_kdf_error {P : Prims} {d : KeystoreData} {pw : Bytes}
    {e : KeystoreError} (h : kdfStage P d pw = .error e) :
    decrypt P d pw = .error e := by
  unfold decrypt
  rw [h]

theorem decryptCalls_kdf_ok {P : Prims} {d : KeystoreData} {pw key : Bytes}
    {c : KdfCall} (h : kdfStage P d pw = .ok (key, c)) :
    decryptCalls P d pw = [c] := by
  unfold decryptCalls
  rw [h]

theorem decryptCalls_kdf_error {P : Prims} {d : KeystoreData} {pw : Bytes}
    {e : KeystoreError} (h : kdfStage P d pw = .error e) :
    decryptCalls P d pw = [] := by
  unfold decryptCalls
  rw [h]

theorem kdfStage_error_ne_invalidPassword {P : Prims} {d : KeystoreData}
    {pw : Bytes} {e : KeystoreError} (h : kdfStage P d pw = .error e) :
    e ≠ .invalidPassword := by
  unfold kdfStage at h
  repeat' split at h
  all_goals simp_all
  all_goals (intro hc; subst hc; simp_all)

theorem addressCheck_eq_some {P : Prims} {d : KeystoreData} {addr : String}
    {e : KeystoreError} (h : addressCheck P d addr = some e) :
    e = .addressMismatch := by
  unfold addressCheck at h
  repeat' split at h
  all_goals simp_all

theorem mnemonicStage_cases (P : Prims) (d : KeystoreData) (key pk : Bytes) :
    (∃ a, mnemonicStage P d key pk = .ok a) ∨
      mnemonicStage P d key pk = .error .mnemonicMismatch := by
  unfold mnemonicStage
  repeat' split
  all_goals simp

theorem getAccount_invalidPassword_iff {P : Prims} {d : KeystoreData}
    {key : Bytes} :
    getAccount P d key = .error .invalidPassword ↔
      macHex P d key ≠ lowerStr d.mac := by
  unfold getAccount
  constructor
  · intro h
    by_cases hmac : macHex P d key = lowerStr d.mac
    · exfalso
      rw [if_neg (not_not_intro hmac)] at h
      split at h
      · exact absurd h (by simp)
      · split at h
        · rename_i e he
          have h2 := addressCheck_eq_some he
          subst h2
          exact absurd h (by simp)
        · rcases mnemonicStage_cases P d key _ with ⟨a, ha⟩ | hm
          · rw [ha] at h
            exact absurd h (by simp)
          · rw [hm] at h
            exact absurd h (by simp)
    · exact hmac
  · intro h
    rw [if_pos h]

theorem innerCipherDecrypt_aes {P : Prims} {d : KeystoreData} {key ct : Bytes}
    (hc : d.cipher = some "aes-128-ctr") :
    innerCipherDecrypt P d key ct = some (P.aesCtr key d.cipherparamsIv ct) := by
  unfold innerCipherDecrypt
  rw [if_pos hc]

theorem innerCipherDecrypt_nonAes {P : Prims} {d : KeystoreData}
    {key ct : Bytes} (hc : d.cipher ≠ some "aes-128-ctr") :
    innerCipherDecrypt P d key ct = none := by
  unfold innerCipherDecrypt
  rw [if_neg hc]

theorem getAccount_reduce {P : Prims} {d : KeystoreData} {key pk : Bytes}
    (hmac : macHex P d key = lowerStr d.mac)
    (hpk : innerCipherDecrypt P d (slice key 0 16) d.ciphertext = some pk) :
    getAccount P d key =
      match addressCheck P d (P.computeAddress pk) with
      | some e => .error e
      | none => mnemonicStage P d key pk := by
  unfold getAccount
  rw [if_neg (not_not_intro hmac), hpk]

theorem getAccount_pastAddress {P : Prims} {d : KeystoreData} {key pk : Bytes}
    (hmac : macHex P d key = lowerStr d.mac)
    (hpk : innerCipherDecrypt P d (slice key 0 16) d.ciphertext = some pk)
    (haddr : addressCheck P d (P.computeAddress pk) = none) :
    getAccount P d key = mnemonicStage P d key pk := by
  rw [getAccount_reduce hmac hpk, haddr]

theorem getAccount_addrError {P : Prims} {d : KeystoreData} {key pk : Bytes}
    {e : KeystoreError}
    (hmac : macHex P d key = lowerStr d.mac)
    (hpk : innerCipherDecrypt P d (slice key 0 16) d.ciphertext = some pk)
    (haddr : addressCheck P d (P.computeAddress pk) = some e) :
    getAccount P d key = .error e := by
  rw [getAccount_reduce hmac hpk, haddr]

theorem mnemonicStage_ver {P : Prims} {d : KeystoreData} {key pk : Bytes}
    {xe : XEthersData} (hxe : d.xethers = some xe)
    (hver : xe.version = "0.1") :
    mnemonicStage P d key pk =
      if (xEthersNode P xe key).privateKey ≠ bytesToHex0x pk then
        .error .mnemonicMismatch
      else
        .ok ⟨P.computeAddress pk, bytesToHex0x pk,
             some (xEthersNode P xe key).mnemonic,
             some (xEthersNode P xe key).path⟩ := by
  unfold mnemonicStage
  rw [hxe]
  exact if_pos hver

theorem mnemonicStage_ok_shape {P : Prims} {d : KeystoreData}
    {key pk : Bytes} {acc : KeystoreAccount}
    (h : mnemonicStage P d key pk = .ok acc) :
    acc.address = P.computeAddress pk ∧ acc.privateKey = bytesToHex0x pk := by
  unfold mnemonicStage at h
  repeat' split at h
  all_goals simp_all [baseAccount]
  all_goals (subst h; exact ⟨rfl, rfl⟩)

theorem getAccount_ok_shape {P : Prims} {d : KeystoreData} {key : Bytes}
    {acc : KeystoreAccount} (h : getAccount P d key = .ok acc) :
    ∃ pk, acc.address = P.computeAddress pk ∧
      acc.privateKey = bytesToHex0x pk := by
  unfold getAccount at h
  split at h
  · exact absurd h (by simp)
  · split at h
    · exact absurd h (by simp)
    · split at h
      · exact absurd h (by simp)
      · rename_i pk hpk _ _
        exact ⟨pk, mnemonicStage_ok_shape h⟩

theorem kdfStage_scrypt_branch (P : Prims) (d : KeystoreData) (pw : Bytes)
    (s : String) (hk : d.kdf = some s) (hne : s ≠ "")
    (hlow : lowerStr s = "scrypt") :
    kdfStage P d pw =
      match d.kdfN, d.kdfR, d.kdfP with
      | some N, some r, some p =>
        if N = 0 ∨ r = 0 ∨ p = 0 then .error .unsupportedKdfParams
        else if (N % 2 ^ 32) &&& ((N - 1) % 2 ^ 32) ≠ 0 then
          .error .unsupportedKdfNValue
        else if d.kdfDklen ≠ some 32 then .error .unsupportedDkLen
        else
          .ok (P.scrypt pw d.kdfSalt N r p 64,
               .scrypt d.kdfSalt N r p 64)
      | _, _, _ => .error .unsupportedKdfParams := by
  unfold kdfStage
  rw [hk]
  show (if s = "" then (Except.error .unsupportedKdf :
      Except KeystoreError (Bytes × KdfCall))
    else if lowerStr s = "scrypt" then _ else _) = _
  rw [if_neg hne, if_pos hlow]

theorem kdfStage_pbkdf2_branch (P : Prims) (d : KeystoreData) (pw : Bytes)
    (s : String) (hk : d.kdf = some s) (hne : s ≠ "")
    (hlow : lowerStr s = "pbkdf2") :
    kdfStage P d pw =
      match d.kdfPrf with
      | some "hmac-sha256" =>
        if d.kdfDklen ≠ some 32 then .error .unsupportedDkLen
        else
          .ok (P.pbkdf2 pw d.kdfSalt d.kdfC 32 "sha256",
               .pbkdf2 d.kdfSalt d.kdfC 32 "sha256")
      | some "hmac-sha512" =>
        if d.kdfDklen ≠ some 32 then .error .unsupportedDkLen
        else
          .ok (P.pbkdf2 pw d.kdfSalt d.kdfC 32 "sha512",
               .pbkdf2 d.kdfSalt d.kdfC 32 "sha512")
      | _ => .error .unsupportedPrf := by
  have hns : lowerStr s ≠ "scrypt" := by
    rw [hlow]
    decide
  unfold kdfStage
  rw [hk]
  show (if s = "" then (Except.error .unsupportedKdf :
      Except KeystoreError (Bytes × KdfCall))
    else if lowerStr s = "scrypt" then _
    else if lowerStr s = "pbkdf2" then _ else _) = _
  rw [if_neg hne, if_neg hns, if_pos hlow]

/-! The claim theorems. -/

/-- C4: on decrypt, the MAC is computed as Keccak-256 of the concatenation
of bytes [16..32) of the derived key with the ciphertext, and decrypt
fails with `invalidPassword` if and only if this value, as lowercase hex,
differs from the document `crypto/mac` field after lowercasing. -/
theorem decrypt_invalidPassword_iff_mac_mismatch (P : Prims)
    (d : KeystoreData) (pw : Bytes) :
    decrypt P d pw = .error .invalidPassword ↔
      ∃ key call, kdfStage P d pw = .ok (key, call) ∧
        bytesToHex (P.keccak256 (slice key 16 32 ++ d.ciphertext)) ≠
          lowerStr d.mac := by
  constructor
  · intro h
    rcases hk : kdfStage P d pw with e | ⟨key, call⟩
    · rw [decrypt_kdf_error hk] at h
      injection h with h2
      exact absurd h2 (kdfStage_error_ne_invalidPassword hk)
    · rw [decrypt_kdf_ok hk] at h
      exact ⟨key, call, rfl, getAccount_invalidPassword_iff.mp h⟩
  · rintro ⟨key, call, hk, hmac⟩
    rw [decrypt_kdf_ok hk]
    exact getAccount_invalidPassword_iff.mpr hmac

/-- C9: MAC verification precedes the cipher-name check: when the document
cipher is not `aes-128-ctr`, the unsupported-cipher error is raised only
when the MAC check succeeds, and with a mismatching MAC the document fails
with `invalidPassword` instead. -/
theorem mac_checked_before_cipher (P : Prims) (d : KeystoreData)
    (pw key : Bytes) (call : KdfCall)
    (hk : kdfStage P d pw = .ok (key, call))
    (hc : d.cipher ≠ some "aes-128-ctr") :
    (macHex P d key ≠ lowerStr d.mac →
      decrypt P d pw = .error .invalidPassword) ∧
    (macHex P d key = lowerStr d.mac →
      decrypt P d pw = .error .unsupportedCipher) ∧
    (decrypt P d pw = .error .unsupportedCipher →
      macHex P d key = lowerStr d.mac) := by
  have hstep := decrypt_kdf_ok hk
  refine ⟨?_, ?_, ?_⟩
  · intro hm
    rw [hstep]
    unfold getAccount
    rw [if_pos hm]
  · intro hm
    rw [hstep]
    unfold getAccount
    rw [if_neg (not_not_intro hm), innerCipherDecrypt_nonAes hc]
  · intro hdec
    by_cases hm : macHex P d key = lowerStr d.mac
    · exact hm
    · exfalso
      rw [hstep] at hdec
      unfold getAccount at hdec
      rw [if_pos hm] at hdec
      exact absurd hdec (by simp)

/-- C7: on decrypt, a document address field is lowercased, prefixed with
`0x` when the prefix is missing, EIP-55-canonicalized and compared with
the address computed from the decrypted private key, failing with
`addressMismatch` exactly on inequality; and every account returned by
decrypt satisfies `address = addressOf(privateKey)`. -/
theorem decrypt_address_check (P : Prims) (d : KeystoreData) (pw : Bytes) :
    (∀ acc, decrypt P d pw = .ok acc →
      acc.address = P.computeAddress (hexToBytes acc.privateKey)) ∧
    (∀ key call a, kdfStage P d pw = .ok (key, call) →
      macHex P d key = lowerStr d.mac →
      d.cipher = some "aes-128-ctr" →
      d.address = some a →
      (decrypt P d pw = .error .addressMismatch ↔
        P.getAddress (normalize0x (lowerStr a)) ≠
          P.computeAddress
            (P.aesCtr (slice key 0 16) d.cipherparamsIv d.ciphertext))) := by
  constructor
  · intro acc hacc
    rcases hk : kdfStage P d pw with e | ⟨key, call⟩
    · rw [decrypt_kdf_error hk] at hacc
      exact absurd hacc (by simp)
    · rw [decrypt_kdf_ok hk] at hacc
      obtain ⟨pk, haf, hpf⟩ := getAccount_ok_shape hacc
      rw [haf, hpf, hexToBytes_bytesToHex0x]
  · intro key call a hk hmac hc ha
    have hstep := decrypt_kdf_ok hk
    have hpk := @innerCipherDecrypt_aes P d (slice key 0 16) d.ciphertext hc
    constructor
    · intro hdec
      by_cases hmm : P.getAddress (normalize0x (lowerStr a)) =
          P.computeAddress (P.aesCtr (slice key 0 16) d.cipherparamsIv
            d.ciphertext)
      · exfalso
        have haddr : addressCheck P d (P.computeAddress
            (P.aesCtr (slice key 0 16) d.cipherparamsIv d.ciphertext)) =
            none := by
          unfold addressCheck
          rw [ha]
          exact if_neg (not_not_intro hmm)
        rw [hstep, getAccount_pastAddress hmac hpk haddr] at hdec
        rcases mnemonicStage_cases P d key _ with ⟨b, hb⟩ | hmn
        · rw [hb] at hdec
          exact absurd hdec (by simp)
        · rw [hmn] at hdec
          exact absurd hdec (by simp)
      · exact hmm
    · intro hmm
      have haddr : addressCheck P d (P.computeAddress
          (P.aesCtr (slice key 0 16) d.cipherparamsIv d.ciphertext)) =
          some .addressMismatch := by
        unfold addressCheck
        rw [ha]
        exact if_pos hmm
      rw [hstep, getAccount_addrError hmac hpk haddr]

/-- C8: when the document has `x-ethers` version `0.1`, decrypt decrypts
the mnemonic ciphertext with AES-CTR under bytes [32..64) of the derived
key using the stored `mnemonicCounter` as iv, converts the entropy to a
mnemonic, derives an HD node along the stored path (default
`m/44h/60h/0h/0/0` when absent, written with hardened marks), and fails
with `mnemonicMismatch` unless the derived private key equals the
recovered one; on success the account carries the node mnemonic and
path.  The derivation pipeline is the definition `xEthersNode`. -/
theorem decrypt_mnemonic_section (P : Prims) (d : KeystoreData)
    (pw key : Bytes) (call : KdfCall) (xe : XEthersData)
    (hk : kdfStage P d pw = .ok (key, call))
    (hmac : macHex P d key = lowerStr d.mac)
    (hc : d.cipher = some "aes-128-ctr")
    (hxe : d.xethers = some xe)
    (hver : xe.version = "0.1")
    (haddr : addressCheck P d (P.computeAddress
      (P.aesCtr (slice key 0 16) d.cipherparamsIv d.ciphertext)) = none) :
    ((xEthersNode P xe key).privateKey ≠
        bytesToHex0x (P.aesCtr (slice key 0 16) d.cipherparamsIv
          d.ciphertext) →
      decrypt P d pw = .error .mnemonicMismatch) ∧
    ((xEthersNode P xe key).privateKey =
        bytesToHex0x (P.aesCtr (slice key 0 16) d.cipherparamsIv
          d.ciphertext) →
      decrypt P d pw = .ok
        ⟨P.computeAddress
           (P.aesCtr (slice key 0 16) d.cipherparamsIv d.ciphertext),
         bytesToHex0x (P.aesCtr (slice key 0 16) d.cipherparamsIv
           d.ciphertext),
         some (xEthersNode P xe key).mnemonic,
         some (xEthersNode P xe key).path⟩) := by
  have hpk := @innerCipherDecrypt_aes P d (slice key 0 16) d.ciphertext hc
  have hstep : decrypt P d pw = mnemonicStage P d key
      (P.aesCtr (slice key 0 16) d.cipherparamsIv d.ciphertext) := by
    rw [decrypt_kdf_ok hk, getAccount_pastAddress hmac hpk haddr]
  rw [hstep, mnemonicStage_ver hxe hver]
  constructor
  · intro hne
    rw [if_pos hne]
  · intro heq
    rw [if_neg (not_not_intro heq)]

/-- C5 (amended): for scrypt documents, missing-or-zero `n`, `r`, `p`
fail with `unsupportedKdfParams`; otherwise, when the 32-bit-reduced
bitwise test `(n AND (n-1)) mod 2^32` is nonzero the document fails with
`unsupportedKdfNValue`; otherwise `dklen` different from 32 fails with
`unsupportedDkLen`; in each failure the scrypt primitive is never
invoked.  For `n < 2^32` the bitwise test is equivalent to `n` being a
power of two, which is the claim as written; for larger `n` it is not
(see the counterexample). -/
theorem scrypt_param_validation (P : Prims) (d : KeystoreData) (pw : Bytes)
    (s : String) (hk : d.kdf = some s) (hne : s ≠ "")
    (hlow : lowerStr s = "scrypt") :
    ((d.kdfN = none ∨ d.kdfN = some 0 ∨ d.kdfR = none ∨ d.kdfR = some 0 ∨
        d.kdfP = none ∨ d.kdfP = some 0) →
      decrypt P d pw = .error .unsupportedKdfParams ∧
        decryptCalls P d pw = []) ∧
    (∀ N r p, d.kdfN = some N → d.kdfR = some r → d.kdfP = some p →
      0 < N → 0 < r → 0 < p →
      (((N % 2 ^ 32) &&& ((N - 1) % 2 ^ 32) ≠ 0 →
          decrypt P d pw = .error .unsupportedKdfNValue ∧
            decryptCalls P d pw = []) ∧
        ((N % 2 ^ 32) &&& ((N - 1) % 2 ^ 32) = 0 → d.kdfDklen ≠ some 32 →
          decrypt P d pw = .error .unsupportedDkLen ∧
            decryptCalls P d pw = []))) ∧
    (∀ N, 0 < N → N < 2 ^ 32 →
      ((N % 2 ^ 32) &&& ((N - 1) % 2 ^ 32) = 0 ↔ ∃ k, N = 2 ^ k)) := by
  have hred := kdfStage_scrypt_branch P d pw s hk hne hlow
  refine ⟨?_, ?_, ?_⟩
  · intro hbad
    have hks : kdfStage P d pw = .error .unsupportedKdfParams := by
      rw [hred]
      rcases hbad with h | h | h | h | h | h <;>
        rcases hN : d.kdfN with _ | N <;>
        rcases hR : d.kdfR with _ | r <;>
        rcases hP : d.kdfP with _ | p <;>
        simp_all
    exact ⟨decrypt_kdf_error hks, decryptCalls_kdf_error hks⟩
  · intro N r p hN hR hP hNpos hrpos hppos
    have hks0 : kdfStage P d pw =
        (if (N % 2 ^ 32) &&& ((N - 1) % 2 ^ 32) ≠ 0 then
          .error .unsupportedKdfNValue
        else if d.kdfDklen ≠ some 32 then .error .unsupportedDkLen
        else
          .ok (P.scrypt pw d.kdfSalt N r p 64,
               .scrypt d.kdfSalt N r p 64)) := by
      rw [hred, hN, hR, hP]
      show (if N = 0 ∨ r = 0 ∨ p = 0 then _ else _) = _
      rw [if_neg (by omega : ¬(N = 0 ∨ r = 0 ∨ p = 0))]
    refine ⟨?_, ?_⟩
    · intro hland
      have hks : kdfStage P d pw = .error .unsupportedKdfNValue := by
        rw [hks0, if_pos hland]
      exact ⟨decrypt_kdf_error hks, decryptCalls_kdf_error hks⟩
    · intro hland hdk
      have hks : kdfStage P d pw = .error .unsupportedDkLen := by
        rw [hks0, if_neg (not_not_intro hland), if_pos hdk]
      exact ⟨decrypt_kdf_error hks, decryptCalls_kdf_error hks⟩
  · intro N hpos hlt
    rw [Nat.mod_eq_of_lt hlt, Nat.mod_eq_of_lt (by omega)]
    exact and_pred_eq_zero_iff_pow2 N hpos

/-- C5 counterexample: with `n = 2^32 + 1`, which is not a power of two,
the document passes the power-of-two check (the JS bitwise AND reduces
both operands modulo 2^32), scrypt is invoked, and decrypt does not fail
with `unsupportedKdfNValue` at all. -/
theorem scrypt_powcheck_counterexample :
    d5.kdfN = some 4294967297 ∧ (¬∃ k, (4294967297 : Nat) = 2 ^ k) ∧
    decryptCalls P0 d5 pw0 = [.scrypt [] 4294967297 1 1 64] ∧
    decrypt P0 d5 pw0 = .ok ⟨"0xab", "0x01", none, none⟩ := by
  refine ⟨rfl, ?_, by decide, by decide⟩
  rintro ⟨k, hk⟩
  cases k with
  | zero => norm_num at hk
  | succ j =>
    have h2 : (2 : Nat) ∣ 4294967297 := by
      rw [hk]
      exact dvd_pow_self 2 (by omega)
    norm_num at h2

/-- C2 (amended): in the pbkdf2 branch, after the prf and dklen fields
are validated, the pbkdf2 primitive is invoked requesting `dkLen = 32`
bytes (the value of the document dklen field), not 64; consequently a
32-byte derived key has an empty [32..64) slice, so no mnemonic AES key
is available in this branch. -/
theorem pbkdf2_invocation_length (P : Prims) (d : KeystoreData) (pw : Bytes)
    (s prfFunc : String) (hk : d.kdf = some s) (hne : s ≠ "")
    (hlow : lowerStr s = "pbkdf2")
    (hprf : (d.kdfPrf = some "hmac-sha256" ∧ prfFunc = "sha256") ∨
      (d.kdfPrf = some "hmac-sha512" ∧ prfFunc = "sha512"))
    (hdk : d.kdfDklen = some 32) :
    kdfStage P d pw =
      .ok (P.pbkdf2 pw d.kdfSalt d.kdfC 32 prfFunc,
           .pbkdf2 d.kdfSalt d.kdfC 32 prfFunc) ∧
    decryptCalls P d pw = [.pbkdf2 d.kdfSalt d.kdfC 32 prfFunc] ∧
    (∀ bs : Bytes, bs.length ≤ 32 → slice bs 32 64 = []) := by
  have hred := kdfStage_pbkdf2_branch P d pw s hk hne hlow
  have hks : kdfStage P d pw =
      .ok (P.pbkdf2 pw d.kdfSalt d.kdfC 32 prfFunc,
           .pbkdf2 d.kdfSalt d.kdfC 32 prfFunc) := by
    rcases hprf with ⟨hp, hf⟩ | ⟨hp, hf⟩ <;> subst hf <;> rw [hred, hp] <;>
      exact if_neg (not_not_intro hdk)
  refine ⟨hks, decryptCalls_kdf_ok hks, ?_⟩
  intro bs hlen
  unfold slice
  rw [List.drop_eq_nil_of_le (by omega)]
  rfl

/-- C2 counterexample: on a valid pbkdf2 document the recorded KDF call
requests 32 bytes, which differs from the 64 bytes stated by the claim,
and the [32..64) mnemonic-key slice of the 32-byte derived key is
empty. -/
theorem pbkdf2_dklen_counterexample :
    decryptCalls P0 d2 pw0 = [.pbkdf2 [] (some 1) 32 "sha256"] ∧
    KdfCall.pbkdf2 [] (some 1) 32 "sha256" ≠
      KdfCall.pbkdf2 [] (some 1) 64 "sha256" ∧
    slice (P0.pbkdf2 pw0 [] (some 1) 32 "sha256") 32 64 = [] := by
  exact ⟨by decide, by decide, by decide⟩

/-- Witness for C7 at concrete inputs. -/
theorem decrypt_address_check_witness :
    (⟨"0xab", "0x01", none, none⟩ : KeystoreAccount).address =
      P0.computeAddress (hexToBytes
        (⟨"0xab", "0x01", none, none⟩ : KeystoreAccount).privateKey) ∧
    decrypt P2 d7bad pw0 = .error .addressMismatch :=
  ⟨(decrypt_address_check P0 d7 pw0).1 ⟨"0xab", "0x01", none, none⟩
      (by decide),
   ((decrypt_address_check P2 d7bad pw0).2 (List.replicate 64 0)
      (.scrypt [] 2 1 1 64) "cd" (by decide) (by decide) (by decide)
      (by decide)).mpr (by decide)⟩

/-- Witness for C8 at concrete inputs. -/
theorem decrypt_mnemonic_section_witness :
    decrypt P0 d8 pw0 = .ok ⟨"0xab", "0x01", some "m", some defaultPath⟩ ∧
    decrypt P0 d8bad pw0 = .error .mnemonicMismatch :=
  ⟨(decrypt_mnemonic_section P0 d8 pw0 (List.replicate 64 0)
      (.scrypt [] 2 1 1 64) ⟨"c", "g", [], [], none, "0.1"⟩ (by decide)
      (by decide) (by decide) (by decide) (by decide) (by decide)).2
      (by decide),
   (decrypt_mnemonic_section P0 d8bad pw0 (List.replicate 64 0)
      (.scrypt [] 2 1 1 64) ⟨"c", "g", [], [], none, "0.1"⟩ (by decide)
      (by decide) (by decide) (by decide) (by decide) (by decide)).1
      (by decide)⟩

/-- Witness for C9 at concrete inputs. -/
theorem mac_checked_before_cipher_witness :
    decrypt P0 d9 pw0 = .error .unsupportedCipher ∧
    decrypt P0 d9bad pw0 = .error .invalidPassword :=
  ⟨(mac_checked_before_cipher P0 d9 pw0 (List.replicate 64 0)
      (.scrypt [] 2 1 1 64) (by decide) (by decide)).2.1 (by decide),
   (mac_checked_before_cipher P0 d9bad pw0 (List.replicate 64 0)
      (.scrypt [] 2 1 1 64) (by decide) (by decide)).1 (by decide)⟩

/-- Witness for the amended C5 at concrete inputs, one per validation
branch, plus the power-of-two equivalence at `n = 4`. -/
theorem scrypt_param_validation_witness :
    (decrypt P0 { dBase with kdfN := none } pw0 =
        .error .unsupportedKdfParams ∧
      decryptCalls P0 { dBase with kdfN := none } pw0 = []) ∧
    (decrypt P0 { dBase with kdfN := some 3 } pw0 =
        .error .unsupportedKdfNValue ∧
      decryptCalls P0 { dBase with kdfN := some 3 } pw0 = []) ∧
    (decrypt P0 { dBase with kdfDklen := some 31 } pw0 =
        .error .unsupportedDkLen ∧
      decryptCalls P0 { dBase with kdfDklen := some 31 } pw0 = []) ∧
    ((4 % 2 ^ 32) &&& ((4 - 1) % 2 ^ 32) = 0) :=
  ⟨(scrypt_param_validation P0 _ pw0 "scrypt" rfl (by decide)
      (by decide)).1 (Or.inl rfl),
   ((scrypt_param_validation P0 _ pw0 "scrypt" rfl (by decide)
      (by decide)).2.1 3 1 1 rfl rfl rfl (by omega) (by omega)
      (by omega)).1 (by decide),
   ((scrypt_param_validation P0 _ pw0 "scrypt" rfl (by decide)
      (by decide)).2.1 2 1 1 rfl rfl rfl (by omega) (by omega)
      (by omega)).2 (by decide) (by decide),
   ((scrypt_param_validation P0 dBase pw0 "scrypt" rfl (by decide)
      (by decide)).2.2 4 (by omega) (by decide)).mpr ⟨2, rfl⟩⟩

/-- Witness for the amended C2 at concrete inputs. -/
theorem pbkdf2_invocation_length_witness :
    kdfStage P0 d2 pw0 = .ok (P0.pbkdf2 pw0 [] (some 1) 32 "sha256",
      .pbkdf2 [] (some 1) 32 "sha256") ∧
    decryptCalls P0 d2 pw0 = [.pbkdf2 [] (some 1) 32 "sha256"] ∧
    slice [0, 0] 32 64 = ([] : Bytes) :=
  have h := pbkdf2_invocation_length P0 d2 pw0 "pbkdf2" "sha256" rfl
    (by decide) (by decide) (Or.inl ⟨rfl, rfl⟩) rfl
  ⟨h.1, h.2.1, h.2.2 [0, 0] (by decide)⟩

theorem encrypt_of_aux_error {P : Prims} {account : KeystoreAccount}
    {pw : Bytes} {options : EncryptOptions} {rand : RandomTape}
    {now : DateParts} {e : KeystoreError}
    (h : encryptAux P account pw options rand now = .error e) :
    encrypt P account pw options rand now = .error e ∧
      encryptCalls P account pw options rand now = [] := by
  unfold encrypt encryptCalls
  rw [h]
  exact ⟨rfl, rfl⟩

theorem encrypt_of_aux_ok {P : Prims} {account : KeystoreAccount}
    {pw : Bytes} {options : EncryptOptions} {rand : RandomTape}
    {now : DateParts} {d : KeystoreData} {c : KdfCall}
    (h : encryptAux P account pw options rand now = .ok (d, c)) :
    encrypt P account pw options rand now = .ok d ∧
      encryptCalls P account pw options rand now = [c] := by
  unfold encrypt encryptCalls
  rw [h]
  exact ⟨rfl, rfl⟩

theorem encryptAux_validate_error {P : Prims} {account : KeystoreAccount}
    (pw : Bytes) (options : EncryptOptions) (rand : RandomTape)
    (now : DateParts) {e : KeystoreError}
    (h : encryptValidate P account = some e) :
    encryptAux P account pw options rand now = .error e := by
  unfold encryptAux
  rw [h]

theorem encryptValidate_addr {P : Prims} {account : KeystoreAccount}
    (h : P.getAddress account.address ≠
      P.computeAddress (hexToBytes account.privateKey)) :
    encryptValidate P account = some .addressPrivateKeyMismatch := by
  unfold encryptValidate
  rw [if_pos h]

theorem encryptValidate_mnemonic {P : Prims} {account : KeystoreAccount}
    {m : String}
    (hg : P.getAddress account.address =
      P.computeAddress (hexToBytes account.privateKey))
    (hm : account.mnemonic = some m)
    (hne : (P.hdDerive m (pathOr account.path)).privateKey ≠
      account.privateKey) :
    encryptValidate P account = some .mnemonicMismatch := by
  unfold encryptValidate
  rw [if_neg (not_not_intro hg), hm]
  exact if_pos hne

theorem encryptValidate_path {P : Prims} {account : KeystoreAccount}
    (hg : P.getAddress account.address =
      P.computeAddress (hexToBytes account.privateKey))
    (hm : account.mnemonic = none) (hp : account.path ≠ none) :
    encryptValidate P account = some .pathWithoutMnemonic := by
  unfold encryptValidate
  rw [if_neg (not_not_intro hg), hm]
  exact if_pos hp

theorem encryptValidate_ok {P : Prims} {account : KeystoreAccount}
    (hg : P.getAddress account.address =
      P.computeAddress (hexToBytes account.privateKey))
    (hmn : ∀ m, account.mnemonic = some m →
      (P.hdDerive m (pathOr account.path)).privateKey = account.privateKey)
    (hpath : account.mnemonic = none → account.path = none) :
    encryptValidate P account = none := by
  unfold encryptValidate
  rw [if_neg (not_not_intro hg)]
  cases hm : account.mnemonic with
  | some m => exact if_neg (not_not_intro (hmn m hm))
  | none => exact if_neg (not_not_intro (hpath hm))

theorem checkIv_bad {options : EncryptOptions} {rand : RandomTape}
    {v : Bytes} (hv : options.iv = some v) (hlen : v.length ≠ 16) :
    checkIv options rand = .error .invalidIv := by
  unfold checkIv
  rw [hv]
  exact if_pos hlen

theorem checkIv_good {options : EncryptOptions} {rand : RandomTape}
    {v : Bytes} (hv : options.iv = some v) (hlen : v.length = 16) :
    checkIv options rand = .ok v := by
  unfold checkIv
  rw [hv]
  exact if_neg (not_not_intro hlen)

theorem checkIv_none {options : EncryptOptions} {rand : RandomTape}
    (hv : options.iv = none) : checkIv options rand = .ok rand.iv := by
  unfold checkIv
  rw [hv]

theorem checkUuid_bad {options : EncryptOptions} {rand : RandomTape}
    {v : Bytes} (hv : options.uuid = some v) (hlen : v.length ≠ 16) :
    checkUuid options rand = .error .invalidUuid := by
  unfold checkUuid
  rw [hv]
  exact if_pos hlen

theorem checkUuid_good {options : EncryptOptions} {rand : RandomTape}
    {v : Bytes} (hv : options.uuid = some v) (hlen : v.length = 16) :
    checkUuid options rand = .ok v := by
  unfold checkUuid
  rw [hv]
  exact if_neg (not_not_intro hlen)

theorem checkUuid_none {options : EncryptOptions} {rand : RandomTape}
    (hv : options.uuid = none) : checkUuid options rand = .ok rand.uuid := by
  unfold checkUuid
  rw [hv]

theorem encryptAux_ok {P : Prims} {account : KeystoreAccount}
    (pw : Bytes) {options : EncryptOptions} {rand : RandomTape}
    (now : DateParts) {iv uuidR : Bytes}
    (hval : encryptValidate P account = none)
    (hiv : checkIv options rand = .ok iv)
    (huu : checkUuid options rand = .ok uuidR) :
    encryptAux P account pw options rand now =
      .ok (buildDoc P account pw options rand now iv uuidR) := by
  unfold encryptAux
  rw [hval, hiv, huu]

theorem encryptAux_iv_error {P : Prims} {account : KeystoreAccount}
    (pw : Bytes) {options : EncryptOptions} {rand : RandomTape}
    (now : DateParts) {e : KeystoreError}
    (hval : encryptValidate P account = none)
    (hiv : checkIv options rand = .error e) :
    encryptAux P account pw options rand now = .error e := by
  unfold encryptAux
  rw [hval, hiv]

theorem encryptAux_uuid_error {P : Prims} {account : KeystoreAccount}
    (pw : Bytes) {options : EncryptOptions} {rand : RandomTape}
    (now : DateParts) {iv : Bytes} {e : KeystoreError}
    (hval : encryptValidate P account = none)
    (hiv : checkIv options rand = .ok iv)
    (huu : checkUuid options rand = .error e) :
    encryptAux P account pw options rand now = .error e := by
  unfold encryptAux
  rw [hval, hiv, huu]

theorem encrypt_of_aux_ok2 {P : Prims} {account : KeystoreAccount}
    {pw : Bytes} {options : EncryptOptions} {rand : RandomTape}
    {now : DateParts} {dc : KeystoreData × KdfCall}
    (h : encryptAux P account pw options rand now = .ok dc) :
    encrypt P account pw options rand now = .ok dc.1 ∧
      encryptCalls P account pw options rand now = [dc.2] := by
  unfold encrypt encryptCalls
  rw [h]
  exact ⟨rfl, rfl⟩

theorem buildDoc_fields (P : Prims) (account : KeystoreAccount) (pw : Bytes)
    (options : EncryptOptions) (rand : RandomTape) (now : DateParts)
    (iv u : Bytes) :
    (buildDoc P account pw options rand now iv u).1.kdfSalt =
      effSalt options rand ∧
    (buildDoc P account pw options rand now iv u).2 =
      .scrypt (effSalt options rand) (effN options) (effR options)
        (effP options) 64 := by
  unfold buildDoc
  cases hent : entropyOf P account <;> exact ⟨rfl, rfl⟩

theorem buildDoc_rand_indep (P : Prims) (account : KeystoreAccount)
    (pw : Bytes) (options : EncryptOptions) (rand rand' : RandomTape)
    (now now' : DateParts) (iv u : Bytes)
    (hsalt : options.salt ≠ none) (hmn : account.mnemonic = none) :
    buildDoc P account pw options rand now iv u =
      buildDoc P account pw options rand' now' iv u := by
  obtain ⟨s, hs⟩ := Option.ne_none_iff_exists'.mp hsalt
  have hent : entropyOf P account = none := by
    unfold entropyOf
    rw [hmn]
  have hsalt2 : ∀ r : RandomTape, effSalt options r = s := by
    intro r
    unfold effSalt
    rw [hs]
  unfold buildDoc
  rw [hent, hsalt2 rand, hsalt2 rand']

theorem buildDoc_mnIv (P : Prims) (account : KeystoreAccount) (pw : Bytes)
    (options : EncryptOptions) (rand rand' : RandomTape) (now : DateParts)
    (iv u : Bytes) (hsalt : options.salt ≠ none)
    (hmi : rand.mnemonicIv = rand'.mnemonicIv) :
    buildDoc P account pw options rand now iv u =
      buildDoc P account pw options rand' now iv u := by
  obtain ⟨s, hs⟩ := Option.ne_none_iff_exists'.mp hsalt
  have hsalt2 : ∀ r : RandomTape, effSalt options r = s := by
    intro r
    unfold effSalt
    rw [hs]
  unfold buildDoc
  rw [hsalt2 rand, hsalt2 rand', hmi]

/-- C6: encrypt validates its account argument before any key derivation:
a canonicalized address that differs from the address computed from the
private key rejects with `addressPrivateKeyMismatch`; a mnemonic that does
not derive along the given (or default) path to the private key rejects
with `mnemonicMismatch`; a path without a mnemonic rejects with
`pathWithoutMnemonic`; in every such case the scrypt KDF is never
invoked. -/
theorem encrypt_prevalidation (P : Prims) (account : KeystoreAccount)
    (pw : Bytes) (options : EncryptOptions) (rand : RandomTape)
    (now : DateParts) :
    (P.getAddress account.address ≠
        P.computeAddress (hexToBytes account.privateKey) →
      encrypt P account pw options rand now =
          .error .addressPrivateKeyMismatch ∧
        encryptCalls P account pw options rand now = []) ∧
    (∀ m, P.getAddress account.address =
        P.computeAddress (hexToBytes account.privateKey) →
      account.mnemonic = some m →
      (P.hdDerive m (pathOr account.path)).privateKey ≠
        account.privateKey →
      encrypt P account pw options rand now = .error .mnemonicMismatch ∧
        encryptCalls P account pw options rand now = []) ∧
    (P.getAddress account.address =
        P.computeAddress (hexToBytes account.privateKey) →
      account.mnemonic = none → account.path ≠ none →
      encrypt P account pw options rand now = .error .pathWithoutMnemonic ∧
        encryptCalls P account pw options rand now = []) := by
  refine ⟨?_, ?_, ?_⟩
  · intro hg
    exact encrypt_of_aux_error
      (encryptAux_validate_error pw options rand now (encryptValidate_addr hg))
  · intro m hg hm hne
    exact encrypt_of_aux_error (encryptAux_validate_error pw options rand now
      (encryptValidate_mnemonic hg hm hne))
  · intro hg hm hp
    exact encrypt_of_aux_error (encryptAux_validate_error pw options rand now
      (encryptValidate_path hg hm hp))

/-- C10: encrypt performs no length validation on the salt override: a
supplied salt of any length is used verbatim as the scrypt salt and never
causes an error, while the iv and uuid overrides are rejected with
`invalidIv` / `invalidUuid` unless they are exactly 16 bytes. -/
theorem encrypt_salt_unchecked (P : Prims) (account : KeystoreAccount)
    (pw : Bytes) (options : EncryptOptions) (rand : RandomTape)
    (now : DateParts)
    (hg : P.getAddress account.address =
      P.computeAddress (hexToBytes account.privateKey))
    (hmn : ∀ m, account.mnemonic = some m →
      (P.hdDerive m (pathOr account.path)).privateKey = account.privateKey)
    (hpath : account.mnemonic = none → account.path = none) :
    (∀ v, options.iv = some v → v.length ≠ 16 →
      encrypt P account pw options rand now = .error .invalidIv) ∧
    (∀ v u, options.iv = some v → v.length = 16 → options.uuid = some u →
      u.length ≠ 16 →
      encrypt P account pw options rand now = .error .invalidUuid) ∧
    (∀ s, options.salt = some s →
      (∀ v, options.iv = some v → v.length = 16) →
      (∀ u, options.uuid = some u → u.length = 16) →
      ∃ doc, encrypt P account pw options rand now = .ok doc ∧
        doc.kdfSalt = s ∧
        encryptCalls P account pw options rand now =
          [.scrypt s (effN options) (effR options) (effP options) 64]) := by
  have hval : encryptValidate P account = none :=
    encryptValidate_ok hg hmn hpath
  refine ⟨?_, ?_, ?_⟩
  · intro v hv hlen
    exact (encrypt_of_aux_error
      (encryptAux_iv_error pw now hval (checkIv_bad hv hlen))).1
  · intro v u hv hlen hu hulen
    exact (encrypt_of_aux_error (encryptAux_uuid_error pw now hval
      (checkIv_good hv hlen) (checkUuid_bad hu hulen))).1
  · intro s hs hiv huu
    have hciv : ∃ iv0, checkIv options rand = .ok iv0 := by
      cases hv : options.iv with
      | some v => exact ⟨v, checkIv_good hv (hiv v hv)⟩
      | none => exact ⟨rand.iv, checkIv_none hv⟩
    have hcuu : ∃ u0, checkUuid options rand = .ok u0 := by
      cases hu : options.uuid with
      | some u => exact ⟨u, checkUuid_good hu (huu u hu)⟩
      | none => exact ⟨rand.uuid, checkUuid_none hu⟩
    obtain ⟨iv0, hciv⟩ := hciv
    obtain ⟨u0, hcuu⟩ := hcuu
    have haux := encryptAux_ok pw now hval hciv hcuu
    have henc := encrypt_of_aux_ok2 haux
    have hflds := buildDoc_fields P account pw options rand now iv0 u0
    have hesalt : effSalt options rand = s := by
      unfold effSalt
      rw [hs]
    refine ⟨(buildDoc P account pw options rand now iv0 u0).1, henc.1, ?_, ?_⟩
    · rw [hflds.1, hesalt]
    · rw [henc.2, hflds.2, hesalt]

/-- C3 (amended): with the iv, salt and uuid overrides fixed, encrypt is
deterministic for accounts without a mnemonic; when the account carries a
mnemonic the output additionally depends exactly on the fresh random
mnemonic iv draw and on the clock timestamp, so two runs agree whenever
those two ambient values agree. -/
theorem encrypt_determinism_amended (P : Prims) (account : KeystoreAccount)
    (pw : Bytes) (options : EncryptOptions) (rand rand' : RandomTape)
    (now now' : DateParts) :
    (account.mnemonic = none → options.iv ≠ none → options.salt ≠ none →
      options.uuid ≠ none →
      encrypt P account pw options rand now =
        encrypt P account pw options rand' now') ∧
    (options.iv ≠ none → options.salt ≠ none → options.uuid ≠ none →
      rand.mnemonicIv = rand'.mnemonicIv → now = now' →
      encrypt P account pw options rand now =
        encrypt P account pw options rand' now') := by
  constructor
  · intro hmn hiv hsalt huu
    obtain ⟨v, hv⟩ := Option.ne_none_iff_exists'.mp hiv
    obtain ⟨u, hu⟩ := Option.ne_none_iff_exists'.mp huu
    have hcIv : checkIv options rand = checkIv options rand' := by
      unfold checkIv
      rw [hv]
    have hcUu : checkUuid options rand = checkUuid options rand' := by
      unfold checkUuid
      rw [hu]
    have haux : encryptAux P account pw options rand now =
        encryptAux P account pw options rand' now' := by
      unfold encryptAux
      cases hval : encryptValidate P account with
      | some e => rfl
      | none =>
        rw [hcIv]
        cases hciv : checkIv options rand' with
        | error e => rfl
        | ok iv0 =>
          rw [hcUu]
          cases hcuu : checkUuid options rand' with
          | error e => rfl
          | ok u0 =>
            exact congrArg Except.ok
              (buildDoc_rand_indep P account pw options rand rand' now now'
                iv0 u0 hsalt hmn)
    unfold encrypt
    rw [haux]
  · intro hiv hsalt huu hmi hnow
    subst hnow
    obtain ⟨v, hv⟩ := Option.ne_none_iff_exists'.mp hiv
    obtain ⟨u, hu⟩ := Option.ne_none_iff_exists'.mp huu
    have hcIv : checkIv options rand = checkIv options rand' := by
      unfold checkIv
      rw [hv]
    have hcUu : checkUuid options rand = checkUuid options rand' := by
      unfold checkUuid
      rw [hu]
    have haux : encryptAux P account pw options rand now =
        encryptAux P account pw options rand' now := by
      unfold encryptAux
      cases hval : encryptValidate P account with
      | some e => rfl
      | none =>
        rw [hcIv]
        cases hciv : checkIv options rand' with
        | error e => rfl
        | ok iv0 =>
          rw [hcUu]
          cases hcuu : checkUuid options rand' with
          | error e => rfl
          | ok u0 =>
            exact congrArg Except.ok
              (buildDoc_mnIv P account pw options rand rand' now iv0 u0
                hsalt hmi)
    unfold encrypt
    rw [haux]

/-- C3 counterexample: two runs of encrypt on identical account,
password and options (with iv, salt and uuid all overridden), differing
only in the ambient `randomBytes` draw used for the mnemonic iv, produce
different documents when the account carries a mnemonic. -/
theorem encrypt_determinism_counterexample :
    ∃ d1 d2, encrypt P0 acc0 pw0 opts0 rand0 now0 = .ok d1 ∧
      encrypt P0 acc0 pw0 opts0 rand1 now0 = .ok d2 ∧ d1 ≠ d2 :=
  ⟨_, _, rfl, rfl, by decide⟩

theorem encrypt_prevalidation_witness :
    (encrypt P1 acc0 pw0 optsNone rand0 now0 =
        .error .addressPrivateKeyMismatch ∧
      encryptCalls P1 acc0 pw0 optsNone rand0 now0 = []) ∧
    (encrypt P0 accBadMn pw0 optsNone rand0 now0 =
        .error .mnemonicMismatch ∧
      encryptCalls P0 accBadMn pw0 optsNone rand0 now0 = []) ∧
    (encrypt P0 accPathOnly pw0 optsNone rand0 now0 =
        .error .pathWithoutMnemonic ∧
      encryptCalls P0 accPathOnly pw0 optsNone rand0 now0 = []) :=
  ⟨(encrypt_prevalidation P1 acc0 pw0 optsNone rand0 now0).1 (by decide),
   (encrypt_prevalidation P0 accBadMn pw0 optsNone rand0 now0).2.1 "m"
     (by decide) rfl (by decide),
   (encrypt_prevalidation P0 accPathOnly pw0 optsNone rand0 now0).2.2
     (by decide) rfl (by decide)⟩

theorem encrypt_salt_unchecked_witness :
    encrypt P0 acc0 pw0 { optsNone with iv := some [0] } rand0 now0 =
      .error .invalidIv ∧
    encrypt P0 acc0 pw0
      { optsNone with iv := some (List.replicate 16 0), uuid := some [0] }
      rand0 now0 = .error .invalidUuid ∧
    (∃ doc, encrypt P0 acc0 pw0 { optsNone with salt := some [1, 2, 3] }
        rand0 now0 = .ok doc ∧ doc.kdfSalt = [1, 2, 3] ∧
      encryptCalls P0 acc0 pw0 { optsNone with salt := some [1, 2, 3] }
        rand0 now0 = [.scrypt [1, 2, 3] 131072 8 1 64]) :=
  ⟨(encrypt_salt_unchecked P0 acc0 pw0 { optsNone with iv := some [0] }
      rand0 now0 (by decide)
      (by intro m hm; injection hm with h2; subst h2; decide)
      (by intro h; exact absurd h (by decide))).1 [0] rfl (by decide),
   (encrypt_salt_unchecked P0 acc0 pw0
      { optsNone with iv := some (List.replicate 16 0), uuid := some [0] }
      rand0 now0 (by decide)
      (by intro m hm; injection hm with h2; subst h2; decide)
      (by intro h; exact absurd h (by decide))).2.1 (List.replicate 16 0)
      [0] rfl (by decide) rfl (by decide),
   (encrypt_salt_unchecked P0 acc0 pw0
      { optsNone with salt := some [1, 2, 3] } rand0 now0 (by decide)
      (by intro m hm; injection hm with h2; subst h2; decide)
      (by intro h; exact absurd h (by decide))).2.2 [1, 2, 3] rfl
      (fun v hv => Option.noConfusion hv)
      (fun u hu => Option.noConfusion hu)⟩

theorem encrypt_determinism_amended_witness :
    encrypt P0 accNoMn pw0 opts0 rand0 now0 =
      encrypt P0 accNoMn pw0 opts0 rand1 now0 ∧
    encrypt P0 acc0 pw0 opts0 rand0 now0 =
      encrypt P0 acc0 pw0 opts0 { rand0 with salt := [1] } now0 :=
  ⟨(encrypt_determinism_amended P0 accNoMn pw0 opts0 rand0 rand1 now0
      now0).1 rfl (by decide) (by decide) (by decide),
   (encrypt_determinism_amended P0 acc0 pw0 opts0 rand0
      { rand0 with salt := [1] } now0 now0).2 (by decide) (by decide)
      (by decide) rfl rfl⟩

theorem pathOr_ne_empty (p : Option String) : pathOr p ≠ "" := by
  unfold pathOr
  cases p with
  | none => decide
  | some s =>
    show (if s = "" then defaultPath else s) ≠ ""
    by_cases hs : s = ""
    · rw [if_pos hs]
      decide
    · rw [if_neg hs]
      exact hs

theorem pathOr_some {q : String} (hq : q ≠ "") : pathOr (some q) = q := by
  unfold pathOr
  show (if q = "" then defaultPath else q) = q
  rw [if_neg hq]

theorem pathOr_pathOr (p : Option String) :
    pathOr (some (pathOr p)) = pathOr p :=
  pathOr_some (pathOr_ne_empty p)

theorem effN_pos (options : EncryptOptions) : 0 < effN options := by
  unfold effN
  repeat' split
  all_goals omega

theorem effR_pos (options : EncryptOptions) : 0 < effR options := by
  unfold effR
  repeat' split
  all_goals omega

theorem effP_pos (options : EncryptOptions) : 0 < effP options := by
  unfold effP
  repeat' split
  all_goals omega

theorem buildDoc_none_eq (P : Prims) (account : KeystoreAccount)
    (pw : Bytes) (options : EncryptOptions) (rand : RandomTape)
    (now : DateParts) (iv u : Bytes)
    (hent : entropyOf P account = none) :
    buildDoc P account pw options rand now iv u =
      (let salt := effSalt options rand
       let key := P.scrypt pw salt (effN options) (effR options)
         (effP options) 64
       let ct := P.aesCtr (slice key 0 16) iv (hexToBytes account.privateKey)
       ({ address := some (lowerStr (strDrop account.address 2)),
          id := some (P.uuidV4 u),
          version := some 3,
          cipher := some "aes-128-ctr",
          cipherparamsIv := iv,
          ciphertext := ct,
          kdf := some "scrypt",
          kdfSalt := salt,
          kdfN := some (effN options),
          kdfR := some (effR options),
          kdfP := some (effP options),
          kdfDklen := some 32,
          kdfC := none,
          kdfPrf := none,
          mac := bytesToHex (P.keccak256 (slice key 16 32 ++ ct)),
          xethers := none },
        KdfCall.scrypt salt (effN options) (effR options)
          (effP options) 64)) := by
  unfold buildDoc
  rw [hent]

theorem buildDoc_some_eq (P : Prims) (account : KeystoreAccount)
    (pw : Bytes) (options : EncryptOptions) (rand : RandomTape)
    (now : DateParts) (iv u e : Bytes)
    (hent : entropyOf P account = some e) :
    buildDoc P account pw options rand now iv u =
      (let salt := effSalt options rand
       let key := P.scrypt pw salt (effN options) (effR options)
         (effP options) 64
       let ct := P.aesCtr (slice key 0 16) iv (hexToBytes account.privateKey)
       let aL := lowerStr (strDrop account.address 2)
       ({ address := some aL,
          id := some (P.uuidV4 u),
          version := some 3,
          cipher := some "aes-128-ctr",
          cipherparamsIv := iv,
          ciphertext := ct,
          kdf := some "scrypt",
          kdfSalt := salt,
          kdfN := some (effN options),
          kdfR := some (effR options),
          kdfP := some (effP options),
          kdfDklen := some 32,
          kdfC := none,
          kdfPrf := none,
          mac := bytesToHex (P.keccak256 (slice key 16 32 ++ ct)),
          xethers := some
            { client := effClient options,
              gethFilename := "UTC--" ++ tsString now ++ "--" ++ aL,
              mnemonicCounter := rand.mnemonicIv,
              mnemonicCiphertext :=
                P.aesCtr (slice key 32 64) rand.mnemonicIv e,
              path := some (pathOr account.path),
              version := "0.1" } },
        KdfCall.scrypt salt (effN options) (effR options)
          (effP options) 64)) := by
  unfold buildDoc
  rw [hent]

theorem decrypt_scrypt_doc (P : Prims) (d : KeystoreData) (pw pk : Bytes)
    (N r p : Nat) (hkdf : d.kdf = some "scrypt")
    (hkN : d.kdfN = some N) (hkR : d.kdfR = some r) (hkP : d.kdfP = some p)
    (hNpos : 0 < N) (hrpos : 0 < r) (hppos : 0 < p)
    (hpow : (N % 2 ^ 32) &&& ((N - 1) % 2 ^ 32) = 0)
    (hdk : d.kdfDklen = some 32)
    (hmacD : d.mac = bytesToHex (P.keccak256
      (slice (P.scrypt pw d.kdfSalt N r p 64) 16 32 ++ d.ciphertext)))
    (hcipher : d.cipher = some "aes-128-ctr")
    (hpk : P.aesCtr (slice (P.scrypt pw d.kdfSalt N r p 64) 0 16)
      d.cipherparamsIv d.ciphertext = pk)
    (haddrOK : addressCheck P d (P.computeAddress pk) = none) :
    decrypt P d pw =
      mnemonicStage P d (P.scrypt pw d.kdfSalt N r p 64) pk := by
  have hks : kdfStage P d pw =
      .ok (P.scrypt pw d.kdfSalt N r p 64, .scrypt d.kdfSalt N r p 64) := by
    rw [kdfStage_scrypt_branch P d pw "scrypt" hkdf (by decide) (by decide),
      hkN, hkR, hkP]
    show (if N = 0 ∨ r = 0 ∨ p = 0 then _ else _) = _
    rw [if_neg (by omega : ¬(N = 0 ∨ r = 0 ∨ p = 0)),
      if_neg (not_not_intro hpow), if_neg (not_not_intro hdk)]
  have hmac : macHex P d (P.scrypt pw d.kdfSalt N r p 64) = lowerStr d.mac := by
    unfold macHex
    rw [hmacD, lowerStr_bytesToHex]
  have hinner := @innerCipherDecrypt_aes P d
    (slice (P.scrypt pw d.kdfSalt N r p 64) 0 16) d.ciphertext hcipher
  rw [hpk] at hinner
  rw [decrypt_kdf_ok hks, getAccount_pastAddress hmac hinner haddrOK]

/-- C1: for every well-formed account (canonical private-key hex and
EIP-55 address agreeing with the private key; any mnemonic present is
non-empty and derives along the given or default path to the private
key; a path is only present alongside a mnemonic), every password, and
every valid options object (iv and uuid overrides 16 bytes when present,
scrypt N a power of two), decrypting the document produced by encrypt
with the same password succeeds and returns the original address and
private key, and, when present, the original mnemonic and path.  The
hypotheses on `Prims` state the contracts of the external collaborators:
AES-CTR is an involution, BIP-39 entropy conversion is a left inverse on
the account mnemonic, EIP-55 canonicalization fixes canonical addresses
and is case-insensitive, and HD derivation reports its mnemonic and
path. -/
theorem decrypt_encrypt_roundTrip (P : Prims) (account : KeystoreAccount)
    (pk pw : Bytes) (options : EncryptOptions) (rand : RandomTape)
    (now : DateParts)
    (hAes : ∀ k v m, P.aesCtr k v (P.aesCtr k v m) = m)
    (hpk : account.privateKey = bytesToHex0x pk)
    (haddr : account.address = P.computeAddress pk)
    (hGA : P.getAddress (P.computeAddress pk) = P.computeAddress pk)
    (hGAlow : P.getAddress ("0x" ++ lowerStr (strDrop (P.computeAddress pk) 2)) =
      P.computeAddress pk)
    (hAddr0x : strTake (lowerStr (strDrop (P.computeAddress pk) 2)) 2 ≠ "0x")
    (hEnt : ∀ m, account.mnemonic = some m →
      P.entropyToMnemonic (P.mnemonicToEntropy m) = m)
    (hmn : ∀ m, account.mnemonic = some m →
      (P.hdDerive m (pathOr account.path)).privateKey = account.privateKey)
    (hHdM : ∀ m, account.mnemonic = some m →
      (P.hdDerive m (pathOr account.path)).mnemonic = m)
    (hHdP : ∀ m, account.mnemonic = some m →
      (P.hdDerive m (pathOr account.path)).path = pathOr account.path)
    (hmne : account.mnemonic ≠ some "")
    (hpathmn : account.path ≠ none → account.mnemonic ≠ none)
    (hpathne : account.path ≠ some "")
    (hN : ∃ k, effN options = 2 ^ k)
    (hiv : ∀ v, options.iv = some v → v.length = 16)
    (huuid : ∀ v, options.uuid = some v → v.length = 16) :
    ∃ doc acc2, encrypt P account pw options rand now = .ok doc ∧
      decrypt P doc pw = .ok acc2 ∧
      acc2.address = account.address ∧
      acc2.privateKey = account.privateKey ∧
      (account.mnemonic = none → acc2.mnemonic = none ∧ acc2.path = none) ∧
      (∀ m, account.mnemonic = some m → acc2.mnemonic = some m) ∧
      (∀ m q, account.mnemonic = some m → account.path = some q →
        acc2.path = some q) := by
  have hpkb : hexToBytes account.privateKey = pk := by
    rw [hpk]
    exact hexToBytes_bytesToHex0x pk
  have hg : P.getAddress account.address =
      P.computeAddress (hexToBytes account.privateKey) := by
    rw [haddr, hpkb]
    exact hGA
  have hpath0 : account.mnemonic = none → account.path = none := by
    intro h
    by_contra hcon
    exact (hpathmn hcon) h
  have hval : encryptValidate P account = none :=
    encryptValidate_ok hg hmn hpath0
  have hciv : ∃ iv0, checkIv options rand = .ok iv0 := by
    cases hv : options.iv with
    | some v => exact ⟨v, checkIv_good hv (hiv v hv)⟩
    | none => exact ⟨rand.iv, checkIv_none hv⟩
  have hcuu : ∃ u0, checkUuid options rand = .ok u0 := by
    cases hu : options.uuid with
    | some u => exact ⟨u, checkUuid_good hu (huuid u hu)⟩
    | none => exact ⟨rand.uuid, checkUuid_none hu⟩
  obtain ⟨iv0, hciv⟩ := hciv
  obtain ⟨u0, hcuu⟩ := hcuu
  have haux := encryptAux_ok pw now hval hciv hcuu
  have henc := encrypt_of_aux_ok2 haux
  have hpow : ((effN options) % 2 ^ 32) &&&
      (((effN options) - 1) % 2 ^ 32) = 0 := by
    obtain ⟨k2, hk2⟩ := hN
    rw [hk2]
    exact pow2_passes_check k2
  rcases hm : account.mnemonic with _ | m
  · -- no mnemonic
    have hent : entropyOf P account = none := by
      unfold entropyOf
      rw [hm]
    have hD := buildDoc_none_eq P account pw options rand now iv0 u0 hent
    have hkdfSalt : (buildDoc P account pw options rand now iv0 u0).1.kdfSalt =
        effSalt options rand := by rw [hD]
    have hmacD : (buildDoc P account pw options rand now iv0 u0).1.mac =
        bytesToHex (P.keccak256 (slice (P.scrypt pw
          (buildDoc P account pw options rand now iv0 u0).1.kdfSalt
          (effN options) (effR options) (effP options) 64) 16 32 ++
          (buildDoc P account pw options rand now iv0 u0).1.ciphertext)) := by
      rw [hD]
    have hpk2 : P.aesCtr (slice (P.scrypt pw
        (buildDoc P account pw options rand now iv0 u0).1.kdfSalt
        (effN options) (effR options) (effP options) 64) 0 16)
        (buildDoc P account pw options rand now iv0 u0).1.cipherparamsIv
        (buildDoc P account pw options rand now iv0 u0).1.ciphertext = pk := by
      rw [hD, hpkb]
      exact hAes _ _ _
    have haddrOK : addressCheck P
        (buildDoc P account pw options rand now iv0 u0).1
        (P.computeAddress pk) = none := by
      have haL : (buildDoc P account pw options rand now iv0 u0).1.address =
          some (lowerStr (strDrop account.address 2)) := by rw [hD]
      unfold addressCheck
      rw [haL, haddr]
      show (if P.getAddress (normalize0x (lowerStr (lowerStr
          (strDrop (P.computeAddress pk) 2)))) ≠ P.computeAddress pk then
          some KeystoreError.addressMismatch else none) = none
      rw [lowerStr_idem]
      unfold normalize0x
      rw [if_pos hAddr0x, hGAlow]
      rw [if_neg (not_not_intro rfl)]
    have hdec := decrypt_scrypt_doc P
      (buildDoc P account pw options rand now iv0 u0).1 pw pk
      (effN options) (effR options) (effP options)
      (by rw [hD]) (by rw [hD]) (by rw [hD]) (by rw [hD])
      (effN_pos options) (effR_pos options) (effP_pos options)
      hpow (by rw [hD]) hmacD (by rw [hD]) hpk2 haddrOK
    have hxeD : (buildDoc P account pw options rand now iv0 u0).1.xethers =
        none := by rw [hD]
    have hmsv : mnemonicStage P (buildDoc P account pw options rand now iv0 u0).1
        (P.scrypt pw (buildDoc P account pw options rand now iv0 u0).1.kdfSalt
          (effN options) (effR options) (effP options) 64) pk =
        .ok (baseAccount P pk) := by
      unfold mnemonicStage
      rw [hxeD]
    refine ⟨(buildDoc P account pw options rand now iv0 u0).1,
      baseAccount P pk, henc.1, ?_, haddr.symm, hpk.symm, ?_, ?_, ?_⟩
    · rw [hdec, hmsv]
    · intro _
      exact ⟨rfl, rfl⟩
    · intro m hmm
      exact Option.noConfusion hmm
    · intro m q hmm _
      exact Option.noConfusion hmm
  · -- mnemonic present
    have hmne2 : m ≠ "" := by
      rintro rfl
      exact hmne hm
    have hent : entropyOf P account = some (P.mnemonicToEntropy m) := by
      unfold entropyOf
      rw [hm]
      show (if m = "" then none else some (P.mnemonicToEntropy m)) =
        some (P.mnemonicToEntropy m)
      rw [if_neg hmne2]
    have hD := buildDoc_some_eq P account pw options rand now iv0 u0
      (P.mnemonicToEntropy m) hent
    have hkdfSalt : (buildDoc P account pw options rand now iv0 u0).1.kdfSalt =
        effSalt options rand := by rw [hD]
    have hmacD : (buildDoc P account pw options rand now iv0 u0).1.mac =
        bytesToHex (P.keccak256 (slice (P.scrypt pw
          (buildDoc P account pw options rand now iv0 u0).1.kdfSalt
          (effN options) (effR options) (effP options) 64) 16 32 ++
          (buildDoc P account pw options rand now iv0 u0).1.ciphertext)) := by
      rw [hD]
    have hpk2 : P.aesCtr (slice (P.scrypt pw
        (buildDoc P account pw options rand now iv0 u0).1.kdfSalt
        (effN options) (effR options) (effP options) 64) 0 16)
        (buildDoc P account pw options rand now iv0 u0).1.cipherparamsIv
        (buildDoc P account pw options rand now iv0 u0).1.ciphertext = pk := by
      rw [hD, hpkb]
      exact hAes _ _ _
    have haddrOK : addressCheck P
        (buildDoc P account pw options rand now iv0 u0).1
        (P.computeAddress pk) = none := by
      have haL : (buildDoc P account pw options rand now iv0 u0).1.address =
          some (lowerStr (strDrop account.address 2)) := by rw [hD]
      unfold addressCheck
      rw [haL, haddr]
      show (if P.getAddress (normalize0x (lowerStr (lowerStr
          (strDrop (P.computeAddress pk) 2)))) ≠ P.computeAddress pk then
          some KeystoreError.addressMismatch else none) = none
      rw [lowerStr_idem]
      unfold normalize0x
      rw [if_pos hAddr0x, hGAlow]
      rw [if_neg (not_not_intro rfl)]
    have hdec := decrypt_scrypt_doc P
      (buildDoc P account pw options rand now iv0 u0).1 pw pk
      (effN options) (effR options) (effP options)
      (by rw [hD]) (by rw [hD]) (by rw [hD]) (by rw [hD])
      (effN_pos options) (effR_pos options) (effP_pos options)
      hpow (by rw [hD]) hmacD (by rw [hD]) hpk2 haddrOK
    have hxeD : (buildDoc P account pw options rand now iv0 u0).1.xethers =
        some ⟨effClient options,
          "UTC--" ++ tsString now ++ "--" ++
            lowerStr (strDrop account.address 2),
          rand.mnemonicIv,
          P.aesCtr (slice (P.scrypt pw (effSalt options rand) (effN options)
            (effR options) (effP options) 64) 32 64) rand.mnemonicIv
            (P.mnemonicToEntropy m),
          some (pathOr account.path), "0.1"⟩ := by rw [hD]
    have hnode : xEthersNode P
        ⟨effClient options,
          "UTC--" ++ tsString now ++ "--" ++
            lowerStr (strDrop account.address 2),
          rand.mnemonicIv,
          P.aesCtr (slice (P.scrypt pw (effSalt options rand) (effN options)
            (effR options) (effP options) 64) 32 64) rand.mnemonicIv
            (P.mnemonicToEntropy m),
          some (pathOr account.path), "0.1"⟩
        (P.scrypt pw (buildDoc P account pw options rand now iv0 u0).1.kdfSalt
          (effN options) (effR options) (effP options) 64) =
        P.hdDerive m (pathOr account.path) := by
      unfold xEthersNode
      rw [hkdfSalt]
      show P.hdDerive (P.entropyToMnemonic (P.aesCtr
        (slice (P.scrypt pw (effSalt options rand) (effN options)
          (effR options) (effP options) 64) 32 64) rand.mnemonicIv
        (P.aesCtr (slice (P.scrypt pw (effSalt options rand) (effN options)
          (effR options) (effP options) 64) 32 64) rand.mnemonicIv
          (P.mnemonicToEntropy m))))
        (pathOr (some (pathOr account.path))) =
        P.hdDerive m (pathOr account.path)
      rw [hAes, hEnt m hm, pathOr_pathOr]
    have hprivk : (P.hdDerive m (pathOr account.path)).privateKey =
        bytesToHex0x pk := (hmn m hm).trans hpk
    have hmsv : mnemonicStage P (buildDoc P account pw options rand now iv0 u0).1
        (P.scrypt pw (buildDoc P account pw options rand now iv0 u0).1.kdfSalt
          (effN options) (effR options) (effP options) 64) pk =
        .ok ⟨P.computeAddress pk, bytesToHex0x pk,
          some (P.hdDerive m (pathOr account.path)).mnemonic,
          some (P.hdDerive m (pathOr account.path)).path⟩ := by
      rw [mnemonicStage_ver hxeD rfl, hnode,
        if_neg (not_not_intro hprivk)]
    refine ⟨(buildDoc P account pw options rand now iv0 u0).1,
      ⟨P.computeAddress pk, bytesToHex0x pk,
        some (P.hdDerive m (pathOr account.path)).mnemonic,
        some (P.hdDerive m (pathOr account.path)).path⟩,
      henc.1, ?_, haddr.symm, hpk.symm, ?_, ?_, ?_⟩
    · rw [hdec, hmsv]
    · intro hcon
      exact Option.noConfusion hcon
    · intro m2 hm2
      injection hm2 with hm3
      subst hm3
      show some (P.hdDerive m (pathOr account.path)).mnemonic = some m
      rw [hHdM m hm]
    · intro m2 q hm2 hq
      injection hm2 with hm3
      subst hm3
      have hqne : q ≠ "" := by
        rintro rfl
        exact hpathne hq
      show some (P.hdDerive m (pathOr account.path)).path = some q
      rw [hHdP m hm, hq, pathOr_some hqne]

/-- Witness for C1 at concrete inputs. -/
theorem decrypt_encrypt_roundTrip_witness :
    ∃ doc acc2, encrypt P0 acc0 pw0 opts0 rand0 now0 = .ok doc ∧
      decrypt P0 doc pw0 = .ok acc2 ∧
      acc2.address = acc0.address ∧
      acc2.privateKey = acc0.privateKey ∧
      (acc0.mnemonic = none → acc2.mnemonic = none ∧ acc2.path = none) ∧
      (∀ m, acc0.mnemonic = some m → acc2.mnemonic = some m) ∧
      (∀ m q, acc0.mnemonic = some m → acc0.path = some q →
        acc2.path = some q) :=
  decrypt_encrypt_roundTrip P0 acc0 [1] pw0 opts0 rand0 now0
    (fun _ _ _ => rfl) (by decide) rfl rfl rfl (by decide)
    (by intro m hm; injection hm)
    (by intro m hm; injection hm with h2; subst h2; rfl)
    (by intro m hm; injection hm with h2; subst h2; rfl)
    (by intro m hm; injection hm with h2; subst h2; rfl)
    (by decide) (by decide) (by decide) ⟨1, rfl⟩
    (by intro v hv; injection hv with h2; subst h2; rfl)
    (by intro v hv; injection hv with h2; subst h2; rfl)

end Keystore
